import Mathlib

/-!
Verification of the terminal input event decoder (src/src/event.rs).

The byte source (the Rust iterator of Result values) is modelled as a list of
items, each an ok byte or a source error; end of list is end of source.  Every
decoding function is translated into a function that returns the decode result,
the list of bytes successfully read (mirroring the inspect wrapper that feeds
the capture buffer in parse_event), and the remaining source.  Bytes are Nat
values; characters are Nat code points.
-/

set_option maxHeartbeats 1000000

namespace Termion

/-- One item yielded by the byte source: a byte, or a source error. -/
inductive SrcItem where
  | ok (b : Nat)
  | err
deriving DecidableEq

/-- The bytes among a list of source items (errors yield no byte). -/
def okBytes (l : List SrcItem) : List Nat :=
  l.filterMap fun i => match i with | .ok b => some b | .err => none

/-- Decode errors: invalid input, unexpected end of source, invalid UTF-8
encoding, or an error surfaced by the byte source itself. -/
inductive DErr where
  | invalidInput
  | unexpectedEof
  | utf8Err
  | srcErr
deriving DecidableEq

inductive MouseButton where
  | Left
  | Right
  | Middle
  | WheelUp
  | WheelDown
deriving DecidableEq

inductive MouseEvent where
  | Press (button : MouseButton) (x y : Nat)
  | Release (x y : Nat)
  | Hold (x y : Nat)
deriving DecidableEq

inductive Key where
  | Backspace
  | Left
  | Right
  | Up
  | Down
  | Home
  | End
  | PageUp
  | PageDown
  | Delete
  | Insert
  | F (n : Nat)
  | Char (c : Nat)
  | Alt (c : Nat)
  | Ctrl (c : Nat)
  | Null
  | Esc
deriving DecidableEq

inductive Event where
  | Key (k : Key)
  | Mouse (m : MouseEvent)
  | Unsupported (bytes : List Nat)
deriving DecidableEq

instance exceptDecEq {ε α : Type} [DecidableEq ε] [DecidableEq α] :
    DecidableEq (Except ε α) := fun x y =>
  match x, y with
  | Except.ok a, Except.ok b =>
    if h : a = b then isTrue (congrArg Except.ok h)
    else isFalse fun hh => h (Except.ok.inj hh)
  | Except.error a, Except.error b =>
    if h : a = b then isTrue (congrArg Except.error h)
    else isFalse fun hh => h (Except.error.inj hh)
  | Except.ok _, Except.error _ => isFalse fun hh => Except.noConfusion hh
  | Except.error _, Except.ok _ => isFalse fun hh => Except.noConfusion hh

/-- A computation that reads from the byte source: it returns a result or a
decode error, together with the bytes it successfully read (in order) and the
remaining source. -/
def M (α : Type) : Type :=
  List SrcItem → Except DErr α × List Nat × List SrcItem

/-- Sequencing: on error the chain stops early, keeping the bytes read so far
(the Rust question-mark operator under the inspect wrapper). -/
def mbind {α β : Type} (x : M α) (f : α → M β) : M β := fun src =>
  match x src with
  | (Except.ok a, c, rest) =>
    let k := f a rest
    (k.1, c ++ k.2.1, k.2.2)
  | (Except.error e, c, rest) => (Except.error e, c, rest)

def mpure {α : Type} (a : α) : M α := fun src => (Except.ok a, [], src)

def mthrow {α : Type} (e : DErr) : M α := fun src => (Except.error e, [], src)

/-- Lift a pure fallible computation (one that reads no bytes). -/
def liftE {α : Type} (r : Except DErr α) : M α := fun src => (r, [], src)

/-- Model of the pop helper: next item, or an unexpected-end error when the
source is exhausted; a source error is propagated. -/
def pop : M Nat := fun src =>
  match src with
  | [] => (Except.error DErr.unexpectedEof, [], [])
  | SrcItem.ok b :: r => (Except.ok b, [b], r)
  | SrcItem.err :: r => (Except.error DErr.srcErr, [], r)

/-! ## Pure helpers: split on a semicolon, decimal parsing, UTF-8 validation -/

/-- Model of splitting a byte string on the semicolon (Rust str split). -/
def splitSemi : List Nat → List (List Nat)
  | [] => [[]]
  | b :: rest =>
    if b = 59 then [] :: splitSemi rest
    else
      match splitSemi rest with
      | g :: gs => (b :: g) :: gs
      | [] => [[b]]

/-- Accumulating decimal parse with a per-step overflow bound (the checked
arithmetic of Rust integer FromStr). -/
def parseNum (maxV : Nat) : List Nat → Nat → Option Nat
  | [], acc => some acc
  | b :: rest, acc =>
    if 48 ≤ b ∧ b ≤ 57 then
      let v := acc * 10 + (b - 48)
      if v ≤ maxV then parseNum maxV rest v else none
    else none

/-- Model of Rust unsigned integer parsing from a string: an optional leading
plus sign (byte 43), then one or more decimal digits, overflow rejected. -/
def rustParse (maxV : Nat) (s : List Nat) : Option Nat :=
  match s with
  | 43 :: r =>
    match r with
    | [] => none
    | _ :: _ => parseNum maxV r 0
  | [] => none
  | _ :: _ => parseNum maxV s 0

/-- Decode the first UTF-8 encoded scalar value of a byte list, returning the
scalar and the remaining bytes, per the standard validation ranges (the same
table Rust str from_utf8 uses: C2..DF, E0 A0..BF, ED 80..9F, F0 90..BF,
F4 80..8F and so on). -/
def utf8DecodeFirst : List Nat → Option (Nat × List Nat)
  | [] => none
  | b0 :: rest =>
    if b0 ≤ 127 then some (b0, rest)
    else if 194 ≤ b0 ∧ b0 ≤ 223 then
      match rest with
      | b1 :: r =>
        if 128 ≤ b1 ∧ b1 ≤ 191 then some ((b0 - 192) * 64 + (b1 - 128), r)
        else none
      | [] => none
    else if 224 ≤ b0 ∧ b0 ≤ 239 then
      match rest with
      | b1 :: b2 :: r =>
        if ((if b0 = 224 then 160 else 128) ≤ b1 ∧
              b1 ≤ (if b0 = 237 then 159 else 191)) ∧
            (128 ≤ b2 ∧ b2 ≤ 191) then
          some ((b0 - 224) * 4096 + (b1 - 128) * 64 + (b2 - 128), r)
        else none
      | _ => none
    else if 240 ≤ b0 ∧ b0 ≤ 244 then
      match rest with
      | b1 :: b2 :: b3 :: r =>
        if ((if b0 = 240 then 144 else 128) ≤ b1 ∧
              b1 ≤ (if b0 = 244 then 143 else 191)) ∧
            (128 ≤ b2 ∧ b2 ≤ 191) ∧ (128 ≤ b3 ∧ b3 ≤ 191) then
          some ((b0 - 240) * 262144 + (b1 - 128) * 4096 + (b2 - 128) * 64 + (b3 - 128), r)
        else none
      | _ => none
    else none

/-- Whole-buffer UTF-8 validity, by repeated first-scalar decoding.  The fuel
argument only drives the recursion; one scalar consumes at least one byte, so
fuel equal to the length is always enough. -/
def utf8ValidAllFuel : Nat → List Nat → Bool
  | _, [] => true
  | 0, _ :: _ => false
  | fuel + 1, b :: rest =>
    match utf8DecodeFirst (b :: rest) with
    | some (_, r) => utf8ValidAllFuel fuel r
    | none => false

/-- Model of Rust str from_utf8 validity of a byte buffer. -/
def utf8ValidAll (l : List Nat) : Bool := utf8ValidAllFuel l.length l

/-- The first character of the buffer when the WHOLE buffer is valid UTF-8
(this is what the parse_utf8_char loop extracts on from_utf8 success). -/
def utf8FirstIfValid (l : List Nat) : Option Nat :=
  match utf8DecodeFirst l with
  | some (ch, r) => if utf8ValidAll r then some ch else none
  | none => none

/-! ## The decoder, translated from event.rs -/

/-- The accumulation loop of parse_utf8_char: read a byte, append, retry full
validation; error when the buffer reaches 4 bytes, or on source end or source
error (both folded into the invalid-encoding error, as in the Rust match). -/
def utf8Loop (bytes : List Nat) : (src : List SrcItem) →
    Except DErr Nat × List Nat × List SrcItem
  | [] => (Except.error DErr.utf8Err, [], [])
  | SrcItem.err :: r => (Except.error DErr.utf8Err, [], r)
  | SrcItem.ok b :: r =>
    let bytes2 := bytes ++ [b]
    match utf8FirstIfValid bytes2 with
    | some ch => (Except.ok ch, [b], r)
    | none =>
      if bytes2.length ≥ 4 then (Except.error DErr.utf8Err, [b], r)
      else
        let k := utf8Loop bytes2 r
        (k.1, b :: k.2.1, k.2.2)

/-- Model of parse_utf8_char: a 7-bit byte is itself the character; otherwise
run the accumulation loop starting from the single-byte buffer. -/
def parse_utf8_char (c : Nat) : M Nat := fun src =>
  if c ≤ 127 then (Except.ok c, [], src)
  else utf8Loop [c] src

/-- The xterm/SGR accumulation loop: gather bytes until an M or m byte
(77 or 109); each further byte comes from pop, so source end or source error
aborts. -/
def sgrLoop (c : Nat) (buf : List Nat) : (src : List SrcItem) →
    Except DErr (List Nat × Nat) × List Nat × List SrcItem
  | [] =>
    if c = 109 ∨ c = 77 then (Except.ok (buf, c), [], [])
    else (Except.error DErr.unexpectedEof, [], [])
  | SrcItem.err :: r =>
    if c = 109 ∨ c = 77 then (Except.ok (buf, c), [], SrcItem.err :: r)
    else (Except.error DErr.srcErr, [], r)
  | SrcItem.ok b :: r =>
    if c = 109 ∨ c = 77 then (Except.ok (buf, c), [], SrcItem.ok b :: r)
    else
      let k := sgrLoop b (buf ++ [c]) r
      (k.1, b :: k.2.1, k.2.2)

/-- The numbered-escape accumulation loop: keep bytes outside the final-byte
range 64..126; the loop also ends, leaving c unchanged, when the source is
exhausted (the while-let in the Rust code). -/
def numLoop (c : Nat) (buf : List Nat) : (src : List SrcItem) →
    Except DErr (List Nat × Nat) × List Nat × List SrcItem
  | [] => (Except.ok (buf, c), [], [])
  | SrcItem.err :: r => (Except.error DErr.srcErr, [], r)
  | SrcItem.ok b :: r =>
    if b < 64 ∨ 126 < b then
      let k := numLoop b (buf ++ [b]) r
      (k.1, b :: k.2.1, k.2.2)
    else (Except.ok (buf, b), [b], r)

/-- The X10 mouse classification.  The Rust code computes cb = b1 as i8 - 32
(release-mode wrapping); i8 shares its bit pattern with u8 and the two tests
cb and 0b11 and cb and 0x40 only look at bits 0,1 and 6, so the computation is
carried on the wrapped byte (b1 + 224) mod 256: bits 0-1 are the value mod 4
and bit 6 is div 64 mod 2.  The final error arm mirrors the unreachable
underscore arm of the Rust match. -/
def x10Event (b1 b2 b3 : Nat) : Except DErr Event :=
  let cb := (b1 + 224) % 256
  let cx := b2 - 32
  let cy := b3 - 32
  if cb % 4 = 0 then
    if cb / 64 % 2 = 1 then Except.ok (Event.Mouse (MouseEvent.Press MouseButton.WheelUp cx cy))
    else Except.ok (Event.Mouse (MouseEvent.Press MouseButton.Left cx cy))
  else if cb % 4 = 1 then
    if cb / 64 % 2 = 1 then Except.ok (Event.Mouse (MouseEvent.Press MouseButton.WheelDown cx cy))
    else Except.ok (Event.Mouse (MouseEvent.Press MouseButton.Middle cx cy))
  else if cb % 4 = 2 then Except.ok (Event.Mouse (MouseEvent.Press MouseButton.Right cx cy))
  else if cb % 4 = 3 then Except.ok (Event.Mouse (MouseEvent.Release cx cy))
  else Except.error DErr.invalidInput

/-- Model of the pop on the semicolon-number iterator: the groups are already
split and mapped through the numeric parse, a parse failure being the
invalid-input error; exhaustion is the unexpected-end error. -/
def popNum : List (Option Nat) → Except DErr Nat × List (Option Nat)
  | [] => (Except.error DErr.unexpectedEof, [])
  | none :: r => (Except.error DErr.invalidInput, r)
  | some v :: r => (Except.ok v, r)

/-- Processing of the accumulated xterm/SGR bytes with their terminator c:
from_utf8, split on the semicolon, parse three u16 numbers, then the cb
match from the Rust code (0..=2 and 64..=65 with the button sub-match and
the M or m terminator; 32 Hold; 3 Release; anything else invalid).  The
button chain ends at WheelDown because under the range guard the only value
left is 65; the Rust unreachable arm cannot fire. -/
def sgrEvent (buf : List Nat) (c : Nat) : Except DErr Event :=
  if utf8ValidAll buf then
    let nums := (splitSemi buf).map (rustParse 65535)
    match popNum nums with
    | (Except.error e, _) => Except.error e
    | (Except.ok cb, n1) =>
      match popNum n1 with
      | (Except.error e, _) => Except.error e
      | (Except.ok cx, n2) =>
        match popNum n2 with
        | (Except.error e, _) => Except.error e
        | (Except.ok cy, _) =>
          if cb ≤ 2 ∨ (64 ≤ cb ∧ cb ≤ 65) then
            let button :=
              if cb = 0 then MouseButton.Left
              else if cb = 1 then MouseButton.Middle
              else if cb = 2 then MouseButton.Right
              else if cb = 64 then MouseButton.WheelUp
              else MouseButton.WheelDown
            if c = 77 then Except.ok (Event.Mouse (MouseEvent.Press button cx cy))
            else if c = 109 then Except.ok (Event.Mouse (MouseEvent.Release cx cy))
            else Except.error DErr.invalidInput
          else if cb = 32 then Except.ok (Event.Mouse (MouseEvent.Hold cx cy))
          else if cb = 3 then Except.ok (Event.Mouse (MouseEvent.Release cx cy))
          else Except.error DErr.invalidInput
  else Except.error DErr.invalidInput

/-- Processing of the accumulated rxvt bytes (numbered escape terminated by M):
from_utf8, split, parse three u16 numbers, then the cb match of the code. -/
def rxvtEvent (buf : List Nat) : Except DErr Event :=
  if utf8ValidAll buf then
    let nums := (splitSemi buf).map (rustParse 65535)
    match popNum nums with
    | (Except.error e, _) => Except.error e
    | (Except.ok cb, n1) =>
      match popNum n1 with
      | (Except.error e, _) => Except.error e
      | (Except.ok cx, n2) =>
        match popNum n2 with
        | (Except.error e, _) => Except.error e
        | (Except.ok cy, _) =>
          if cb = 32 then Except.ok (Event.Mouse (MouseEvent.Press MouseButton.Left cx cy))
          else if cb = 33 then Except.ok (Event.Mouse (MouseEvent.Press MouseButton.Middle cx cy))
          else if cb = 34 then Except.ok (Event.Mouse (MouseEvent.Press MouseButton.Right cx cy))
          else if cb = 35 then Except.ok (Event.Mouse (MouseEvent.Release cx cy))
          else if cb = 64 then Except.ok (Event.Mouse (MouseEvent.Hold cx cy))
          else if cb = 96 ∨ cb = 97 then Except.ok (Event.Mouse (MouseEvent.Press MouseButton.WheelUp cx cy))
          else Except.error DErr.invalidInput
  else Except.error DErr.invalidInput

/-- Processing of the accumulated special-key bytes (numbered escape terminated
by a tilde): from_utf8, split, parse the first number as u8, reject a second
parameter, then the num match of the code. -/
def specialKeyEvent (buf : List Nat) : Except DErr Event :=
  if utf8ValidAll buf then
    let nums := (splitSemi buf).map (rustParse 255)
    match popNum nums with
    | (Except.error e, _) => Except.error e
    | (Except.ok num, n1) =>
      if n1 ≠ [] then Except.error DErr.invalidInput
      else if num = 1 ∨ num = 7 then Except.ok (Event.Key Key.Home)
      else if num = 2 then Except.ok (Event.Key Key.Insert)
      else if num = 3 then Except.ok (Event.Key Key.Delete)
      else if num = 4 ∨ num = 8 then Except.ok (Event.Key Key.End)
      else if num = 5 then Except.ok (Event.Key Key.PageUp)
      else if num = 6 then Except.ok (Event.Key Key.PageDown)
      else if 11 ≤ num ∧ num ≤ 15 then Except.ok (Event.Key (Key.F (num - 10)))
      else if 17 ≤ num ∧ num ≤ 21 then Except.ok (Event.Key (Key.F (num - 11)))
      else if 23 ≤ num ∧ num ≤ 24 then Except.ok (Event.Key (Key.F (num - 12)))
      else Except.error DErr.invalidInput
  else Except.error DErr.invalidInput

/-- Map the success value of a reading computation (used for the Alt and Char
wrapping of a decoded character). -/
def mmap {α β : Type} (x : M α) (g : α → β) : M β := fun src =>
  let k := x src
  (k.1.map g, k.2.1, k.2.2)

/-- The legacy function-key branch of parse_csi (after ESC [ [): one more
byte, A..E giving F1..F5, anything else invalid, end of source invalid. -/
def legacyFKeys : M Event := fun src =>
  match src with
  | [] => (Except.error DErr.unexpectedEof, [], [])
  | SrcItem.err :: r => (Except.error DErr.srcErr, [], r)
  | SrcItem.ok v :: r =>
    if 65 ≤ v ∧ v ≤ 69 then (Except.ok (Event.Key (Key.F (1 + v - 65))), [v], r)
    else (Except.error DErr.invalidInput, [v], r)

/-- The X10 mouse branch of parse_csi: read exactly three bytes. -/
def x10Read : M Event :=
  mbind pop fun b1 => mbind pop fun b2 => mbind pop fun b3 => liftE (x10Event b1 b2 b3)

/-- The xterm/SGR mouse branch of parse_csi. -/
def sgrRead : M Event :=
  mbind pop fun c0 => mbind (sgrLoop c0 []) fun r => liftE (sgrEvent r.1 r.2)

/-- The numbered-escape branch of parse_csi, entered at leading digit b. -/
def numRead (b : Nat) : M Event :=
  mbind (numLoop b [b]) fun r =>
    if r.2 = 77 then liftE (rxvtEvent r.1)
    else if r.2 = 126 then liftE (specialKeyEvent r.1)
    else mthrow DErr.invalidInput

/-- The branch table of parse_csi after its first byte has been read. -/
def csiBody (b : Nat) : M Event :=
  if b = 91 then legacyFKeys
  else if b = 68 then mpure (Event.Key Key.Left)
  else if b = 67 then mpure (Event.Key Key.Right)
  else if b = 65 then mpure (Event.Key Key.Up)
  else if b = 66 then mpure (Event.Key Key.Down)
  else if b = 72 then mpure (Event.Key Key.Home)
  else if b = 70 then mpure (Event.Key Key.End)
  else if b = 77 then x10Read
  else if b = 60 then sgrRead
  else if 48 ≤ b ∧ b ≤ 57 then numRead b
  else mthrow DErr.invalidInput

/-- Model of parse_csi: read the dispatch byte, then the branch table. -/
def parse_csi : M Event :=
  mbind pop csiBody

/-- The continuation of the dispatcher once ESC and one further byte c have
been read.  The Unsupported payloads of the O branch are the literal byte
vectors the Rust code builds, which use 48 (the digit zero) where the byte
79 (the letter O) was actually read. -/
def escTail (c : Nat) : M Event :=
  if c = 79 then fun r =>
    match r with
    | [] => (Except.ok (Event.Unsupported [27, 48]), [], [])
    | SrcItem.err :: r2 => (Except.error DErr.srcErr, [], r2)
    | SrcItem.ok v :: r2 =>
      if 80 ≤ v ∧ v ≤ 83 then (Except.ok (Event.Key (Key.F (1 + v - 80))), [v], r2)
      else (Except.ok (Event.Unsupported [27, 48, v]), [v], r2)
  else if c = 91 then parse_csi
  else mmap (parse_utf8_char c) fun ch => Event.Key (Key.Alt ch)

/-- Model of try_parse_event: the dispatcher over the first byte. -/
def try_parse_event (item : Nat) : M Event := fun src =>
  if item = 27 then
    match src with
    | [] => (Except.ok (Event.Unsupported [27]), [], [])
    | SrcItem.err :: r => (Except.error DErr.srcErr, [], r)
    | SrcItem.ok c :: r =>
      let k := escTail c r
      (k.1, c :: k.2.1, k.2.2)
  else if item = 10 ∨ item = 13 then (Except.ok (Event.Key (Key.Char 10)), [], src)
  else if item = 9 then (Except.ok (Event.Key (Key.Char 9)), [], src)
  else if item = 127 then (Except.ok (Event.Key Key.Backspace), [], src)
  else if 1 ≤ item ∧ item ≤ 26 then (Except.ok (Event.Key (Key.Ctrl (item - 1 + 97))), [], src)
  else if 28 ≤ item ∧ item ≤ 31 then (Except.ok (Event.Key (Key.Ctrl (item - 28 + 52))), [], src)
  else if item = 0 then (Except.ok (Event.Key Key.Null), [], src)
  else mmap (parse_utf8_char item) (fun ch => Event.Key (Key.Char ch)) src

/-- Model of parse_event: run the dispatcher; the capture buffer is the first
byte followed by every byte successfully read; on any error return the
Unsupported event carrying that buffer instead. -/
def parse_event (item : Nat) (src : List SrcItem) :
    (Event × List Nat) × List SrcItem :=
  let k := try_parse_event item src
  match k.1 with
  | Except.ok e => ((e, item :: k.2.1), k.2.2)
  | Except.error _ => ((Event.Unsupported (item :: k.2.1), item :: k.2.1), k.2.2)

/-! ## Consumption discipline: every decoder consumes a prefix of the source
and captures exactly the ok bytes of that prefix, in order -/

/-- The captured list c and the leftover rest arise from src by splitting off
a consumed prefix whose ok bytes are exactly c. -/
def ConsumedOK (c : List Nat) (src rest : List SrcItem) : Prop :=
  ∃ k, k ≤ src.length ∧ rest = src.drop k ∧ c = okBytes (src.take k)

theorem consumedOK_nil (src : List SrcItem) : ConsumedOK [] src src :=
  ⟨0, Nat.zero_le _, rfl, rfl⟩

theorem consumedOK_cons_ok {c : List Nat} {r rest : List SrcItem} (b : Nat)
    (h : ConsumedOK c r rest) : ConsumedOK (b :: c) (SrcItem.ok b :: r) rest := by
  obtain ⟨k, hk, hr, hc⟩ := h
  exact ⟨k + 1, by simpa using hk, by simpa using hr, by simp [okBytes, hc]⟩

theorem consumedOK_cons_err {c : List Nat} {r rest : List SrcItem}
    (h : ConsumedOK c r rest) : ConsumedOK c (SrcItem.err :: r) rest := by
  obtain ⟨k, hk, hr, hc⟩ := h
  exact ⟨k + 1, by simpa using hk, by simpa using hr, by simp [okBytes, hc]⟩

theorem consumedOK_trans {c1 c2 : List Nat} {src mid rest : List SrcItem}
    (h1 : ConsumedOK c1 src mid) (h2 : ConsumedOK c2 mid rest) :
    ConsumedOK (c1 ++ c2) src rest := by
  obtain ⟨k1, hk1, hm, hc1⟩ := h1
  obtain ⟨k2, hk2, hr, hc2⟩ := h2
  refine ⟨k1 + k2, ?_, ?_, ?_⟩
  · have := List.length_drop k1 src
    rw [← hm] at this
    omega
  · rw [hr, hm, List.drop_drop, Nat.add_comm]
  · rw [List.take_add, okBytes, List.filterMap_append, ← okBytes, ← okBytes,
      ← hc1, ← hm, ← hc2]

/-- A reading computation respects the consumption discipline on every
source. -/
def CSpec {α : Type} (m : M α) : Prop :=
  ∀ src, ConsumedOK (m src).2.1 src (m src).2.2

theorem cspec_mpure {α : Type} (a : α) : CSpec (mpure a) := fun src =>
  consumedOK_nil src

theorem cspec_mthrow {α : Type} (e : DErr) : CSpec (mthrow e : M α) := fun src =>
  consumedOK_nil src

theorem cspec_liftE {α : Type} (r : Except DErr α) : CSpec (liftE r) := fun src =>
  consumedOK_nil src

theorem cspec_pop : CSpec pop := by
  intro src
  match src with
  | [] => exact consumedOK_nil []
  | SrcItem.ok b :: r => exact consumedOK_cons_ok b (consumedOK_nil r)
  | SrcItem.err :: r => exact consumedOK_cons_err (consumedOK_nil r)

theorem cspec_mbind {α β : Type} {x : M α} {f : α → M β}
    (hx : CSpec x) (hf : ∀ a, CSpec (f a)) : CSpec (mbind x f) := by
  intro src
  have h1 := hx src
  unfold mbind
  match hres : x src with
  | (Except.ok a, c, rest) =>
    rw [hres] at h1
    have h2 := hf a rest
    simpa using consumedOK_trans h1 h2
  | (Except.error e, c, rest) =>
    rw [hres] at h1
    simpa using h1

theorem cspec_utf8Loop (bytes : List Nat) : CSpec (utf8Loop bytes) := by
  intro src
  induction src generalizing bytes with
  | nil => exact consumedOK_nil []
  | cons i r ih =>
    match i with
    | SrcItem.err => exact consumedOK_cons_err (consumedOK_nil r)
    | SrcItem.ok b =>
      show ConsumedOK (utf8Loop bytes (SrcItem.ok b :: r)).2.1 _ (utf8Loop bytes (SrcItem.ok b :: r)).2.2
      rw [utf8Loop]
      cases h : utf8FirstIfValid (bytes ++ [b]) with
      | some ch => exact consumedOK_cons_ok b (consumedOK_nil r)
      | none =>
        simp only
        split
        · exact consumedOK_cons_ok b (consumedOK_nil r)
        · exact consumedOK_cons_ok b (ih (bytes ++ [b]))

theorem cspec_parse_utf8_char (c : Nat) : CSpec (parse_utf8_char c) := by
  intro src
  unfold parse_utf8_char
  split
  · exact consumedOK_nil src
  · exact cspec_utf8Loop [c] src

theorem cspec_sgrLoop (c : Nat) (buf : List Nat) : CSpec (sgrLoop c buf) := by
  intro src
  induction src generalizing c buf with
  | nil =>
    rw [sgrLoop]
    split
    · exact consumedOK_nil []
    · exact consumedOK_nil []
  | cons i r ih =>
    match i with
    | SrcItem.err =>
      rw [sgrLoop]
      split
      · exact consumedOK_nil _
      · exact consumedOK_cons_err (consumedOK_nil r)
    | SrcItem.ok b =>
      rw [sgrLoop]
      split
      · exact consumedOK_nil _
      · exact consumedOK_cons_ok b (ih b (buf ++ [c]))

theorem cspec_numLoop (c : Nat) (buf : List Nat) : CSpec (numLoop c buf) := by
  intro src
  induction src generalizing c buf with
  | nil => exact consumedOK_nil []
  | cons i r ih =>
    match i with
    | SrcItem.err => exact consumedOK_cons_err (consumedOK_nil r)
    | SrcItem.ok b =>
      rw [numLoop]
      split
      · exact consumedOK_cons_ok b (ih b (buf ++ [b]))
      · exact consumedOK_cons_ok b (consumedOK_nil r)

theorem cspec_mmap {α β : Type} {x : M α} (g : α → β) (hx : CSpec x) :
    CSpec (mmap x g) := by
  intro src
  have h := hx src
  unfold mmap
  exact h

theorem cspec_legacyFKeys : CSpec legacyFKeys := by
  intro src
  match src with
  | [] => exact consumedOK_nil []
  | SrcItem.err :: r => exact consumedOK_cons_err (consumedOK_nil r)
  | SrcItem.ok v :: r =>
    show ConsumedOK (legacyFKeys (SrcItem.ok v :: r)).2.1 _ (legacyFKeys (SrcItem.ok v :: r)).2.2
    by_cases h : 65 ≤ v ∧ v ≤ 69
    · simp only [legacyFKeys, if_pos h]
      exact consumedOK_cons_ok v (consumedOK_nil r)
    · simp only [legacyFKeys, if_neg h]
      exact consumedOK_cons_ok v (consumedOK_nil r)

theorem cspec_x10Read : CSpec x10Read :=
  cspec_mbind cspec_pop fun _ =>
    cspec_mbind cspec_pop fun _ =>
      cspec_mbind cspec_pop fun _ => cspec_liftE _

theorem cspec_sgrRead : CSpec sgrRead :=
  cspec_mbind cspec_pop fun c0 =>
    cspec_mbind (cspec_sgrLoop c0 []) fun _ => cspec_liftE _

theorem cspec_numRead (b : Nat) : CSpec (numRead b) := by
  refine cspec_mbind (cspec_numLoop b [b]) fun r => ?_
  split
  · exact cspec_liftE _
  · split
    · exact cspec_liftE _
    · exact cspec_mthrow _

theorem cspec_csiBody (b : Nat) : CSpec (csiBody b) := by
  unfold csiBody
  repeat' split
  all_goals first
    | exact cspec_legacyFKeys
    | exact cspec_mpure _
    | exact cspec_x10Read
    | exact cspec_sgrRead
    | exact cspec_numRead b
    | exact cspec_mthrow _

theorem cspec_parse_csi : CSpec parse_csi :=
  cspec_mbind cspec_pop cspec_csiBody

theorem cspec_escTail (c : Nat) : CSpec (escTail c) := by
  unfold escTail
  split
  · intro r
    match r with
    | [] => exact consumedOK_nil []
    | SrcItem.err :: r2 => exact consumedOK_cons_err (consumedOK_nil r2)
    | SrcItem.ok v :: r2 =>
      simp only
      split
      · exact consumedOK_cons_ok v (consumedOK_nil r2)
      · exact consumedOK_cons_ok v (consumedOK_nil r2)
  · split
    · exact cspec_parse_csi
    · exact cspec_mmap _ (cspec_parse_utf8_char c)

theorem cspec_try_parse_event (item : Nat) : CSpec (try_parse_event item) := by
  intro src
  by_cases h27 : item = 27
  · simp only [try_parse_event, if_pos h27]
    match src with
    | [] => exact consumedOK_nil []
    | SrcItem.err :: r => exact consumedOK_cons_err (consumedOK_nil r)
    | SrcItem.ok c :: r => exact consumedOK_cons_ok c (cspec_escTail c r)
  · simp only [try_parse_event, if_neg h27]
    repeat' split
    all_goals first
      | exact consumedOK_nil src
      | exact cspec_mmap _ (cspec_parse_utf8_char item) src

theorem parse_event_try_ok {item : Nat} {src : List SrcItem} {e : Event}
    (h : (try_parse_event item src).1 = Except.ok e) :
    parse_event item src =
      ((e, item :: (try_parse_event item src).2.1), (try_parse_event item src).2.2) := by
  simp only [parse_event]
  rw [h]

theorem parse_event_try_error {item : Nat} {src : List SrcItem} {err : DErr}
    (h : (try_parse_event item src).1 = Except.error err) :
    parse_event item src =
      ((Event.Unsupported (item :: (try_parse_event item src).2.1),
        item :: (try_parse_event item src).2.1), (try_parse_event item src).2.2) := by
  simp only [parse_event]
  rw [h]

theorem parse_event_consumedOK (item : Nat) (src : List SrcItem) :
    ∃ k, k ≤ src.length ∧ (parse_event item src).2 = src.drop k ∧
      (parse_event item src).1.2 = item :: okBytes (src.take k) := by
  obtain ⟨k, hk, hr, hc⟩ := cspec_try_parse_event item src
  refine ⟨k, hk, ?_, ?_⟩ <;>
  · cases h : (try_parse_event item src).1 with
    | ok e => rw [parse_event_try_ok h]; simp [hr, hc]
    | error err => rw [parse_event_try_error h]; simp [hr, hc]

/-! ## Decimal digit strings and their parsing -/

/-- Little-endian decimal digit bytes of n; the fuel only drives the
recursion and n is always enough of it. -/
def digitsAuxR (fuel n : Nat) : List Nat :=
  match fuel with
  | 0 => []
  | f + 1 => if n = 0 then [] else (n % 10 + 48) :: digitsAuxR f (n / 10)

/-- The decimal digit bytes of n, most significant first (the ASCII rendering
of n used to build inputs to the decoder in the theorems below). -/
def digitsOf (n : Nat) : List Nat :=
  if n = 0 then [48] else (digitsAuxR n n).reverse

/-- The value accumulated by the parsing fold over a digit-byte list. -/
def digitsVal (acc : Nat) (l : List Nat) : Nat :=
  l.foldl (fun a b => a * 10 + (b - 48)) acc

theorem digitsVal_nil (acc : Nat) : digitsVal acc [] = acc := rfl

theorem digitsVal_cons (acc b : Nat) (l : List Nat) :
    digitsVal acc (b :: l) = digitsVal (acc * 10 + (b - 48)) l := rfl

theorem digitsVal_le (l : List Nat) : ∀ acc, acc ≤ digitsVal acc l := by
  induction l with
  | nil => intro acc; exact Nat.le_refl _
  | cons b t ih =>
    intro acc
    rw [digitsVal_cons]
    calc acc ≤ acc * 10 + (b - 48) := by omega
      _ ≤ digitsVal (acc * 10 + (b - 48)) t := ih _

theorem parseNum_digits (maxV : Nat) (l : List Nat)
    (hd : ∀ b ∈ l, 48 ≤ b ∧ b ≤ 57) : ∀ acc, acc ≤ maxV →
    parseNum maxV l acc =
      if digitsVal acc l ≤ maxV then some (digitsVal acc l) else none := by
  induction l with
  | nil =>
    intro acc hacc
    rw [digitsVal_nil, if_pos hacc]
    rfl
  | cons b t ih =>
    intro acc hacc
    have hb := hd b (List.mem_cons_self b t)
    have ht : ∀ x ∈ t, 48 ≤ x ∧ x ≤ 57 := fun x hx => hd x (List.mem_cons_of_mem b hx)
    rw [parseNum, if_pos hb, digitsVal_cons]
    by_cases hv : acc * 10 + (b - 48) ≤ maxV
    · rw [if_pos hv]
      exact ih ht _ hv
    · rw [if_neg hv, if_neg]
      intro hle
      exact hv (Nat.le_trans (digitsVal_le t _) hle)

theorem digitsAuxR_mem (fuel : Nat) : ∀ n b, b ∈ digitsAuxR fuel n → 48 ≤ b ∧ b ≤ 57 := by
  induction fuel with
  | zero => intro n b hb; simp [digitsAuxR] at hb
  | succ f ih =>
    intro n b hb
    rw [digitsAuxR] at hb
    by_cases hn : n = 0
    · rw [if_pos hn] at hb; simp at hb
    · rw [if_neg hn] at hb
      rcases List.mem_cons.mp hb with h | h
      · have : n % 10 < 10 := Nat.mod_lt _ (by norm_num)
        omega
      · exact ih _ b h

theorem digitsOf_mem (n : Nat) : ∀ b ∈ digitsOf n, 48 ≤ b ∧ b ≤ 57 := by
  intro b hb
  unfold digitsOf at hb
  by_cases hn : n = 0
  · rw [if_pos hn] at hb
    rcases List.mem_singleton.mp hb with rfl
    omega
  · rw [if_neg hn] at hb
    exact digitsAuxR_mem n n b (List.mem_reverse.mp hb)

theorem digitsAuxR_val (fuel : Nat) : ∀ n, n < 10 ^ fuel →
    digitsVal 0 (digitsAuxR fuel n).reverse = n := by
  induction fuel with
  | zero =>
    intro n hn
    interval_cases n
    rfl
  | succ f ih =>
    intro n hn
    rw [digitsAuxR]
    by_cases h0 : n = 0
    · rw [if_pos h0, h0]
      rfl
    · rw [if_neg h0]
      have hdiv : n / 10 < 10 ^ f := by
        apply Nat.div_lt_of_lt_mul
        calc n < 10 ^ (f + 1) := hn
          _ = 10 * 10 ^ f := by ring
      have := ih (n / 10) hdiv
      rw [List.reverse_cons]
      unfold digitsVal at this ⊢
      rw [List.foldl_append, this]
      simp only [List.foldl_cons, List.foldl_nil]
      omega

theorem digitsVal_digitsOf (n : Nat) : digitsVal 0 (digitsOf n) = n := by
  unfold digitsOf
  by_cases h0 : n = 0
  · rw [if_pos h0, h0]
    rfl
  · rw [if_neg h0]
    exact digitsAuxR_val n n (Nat.lt_pow_self (by norm_num) n)

theorem digitsOf_ne_nil (n : Nat) : digitsOf n ≠ [] := by
  unfold digitsOf
  by_cases h0 : n = 0
  · rw [if_pos h0]; simp
  · rw [if_neg h0]
    match n, h0 with
    | Nat.succ m, h0 =>
      rw [digitsAuxR]
      simp

theorem rustParse_of_head_ne_plus (maxV d : Nat) (ds : List Nat) (hne : d ≠ 43) :
    rustParse maxV (d :: ds) = parseNum maxV (d :: ds) 0 := by
  unfold rustParse
  split
  · rename_i r heq
    injection heq with h1 h2
    exact absurd h1 hne
  · rename_i heq
    cases heq
  · rfl

theorem rustParse_digitsOf (maxV n : Nat) :
    rustParse maxV (digitsOf n) = if n ≤ maxV then some n else none := by
  match hd : digitsOf n with
  | [] => exact absurd hd (digitsOf_ne_nil n)
  | d :: ds =>
    have hdig : ∀ b ∈ d :: ds, 48 ≤ b ∧ b ≤ 57 := by rw [← hd]; exact digitsOf_mem n
    have hd48 : 48 ≤ d := (hdig d (List.mem_cons_self d ds)).1
    have hval : digitsVal 0 (d :: ds) = n := by rw [← hd]; exact digitsVal_digitsOf n
    have hne : d ≠ 43 := by omega
    rw [rustParse_of_head_ne_plus maxV d ds hne,
      parseNum_digits maxV (d :: ds) hdig 0 (Nat.zero_le _), hval]

/-! ## Splitting on the semicolon -/

theorem splitSemi_no_sep (l : List Nat) (h : ∀ b ∈ l, b ≠ 59) :
    splitSemi l = [l] := by
  induction l with
  | nil => rfl
  | cons b t ih =>
    have hb : b ≠ 59 := h b (List.mem_cons_self b t)
    have ht : ∀ x ∈ t, x ≠ 59 := fun x hx => h x (List.mem_cons_of_mem b hx)
    rw [splitSemi, if_neg hb, ih ht]

theorem splitSemi_append (a : List Nat) (ha : ∀ b ∈ a, b ≠ 59) (r : List Nat) :
    splitSemi (a ++ 59 :: r) = a :: splitSemi r := by
  induction a with
  | nil =>
    rw [List.nil_append, splitSemi, if_pos rfl]
  | cons b t ih =>
    have hb : b ≠ 59 := ha b (List.mem_cons_self b t)
    have ht : ∀ x ∈ t, x ≠ 59 := fun x hx => ha x (List.mem_cons_of_mem b hx)
    rw [List.cons_append, splitSemi, if_neg hb, ih ht]

/-! ## Behavior of the accumulation loops on well-formed inputs -/

theorem sgrLoop_term (c : Nat) (hc : c = 109 ∨ c = 77) (buf : List Nat) :
    ∀ src, sgrLoop c buf src = (Except.ok (buf, c), [], src)
  | [] => by rw [sgrLoop, if_pos hc]
  | SrcItem.err :: r => by rw [sgrLoop, if_pos hc]
  | SrcItem.ok b :: r => by rw [sgrLoop, if_pos hc]

theorem sgrLoop_run (t : Nat) (ht : t = 109 ∨ t = 77) :
    ∀ (l : List Nat) (c : Nat) (buf : List Nat) (rest : List SrcItem),
    (∀ b ∈ l, b ≠ 109 ∧ b ≠ 77) → c ≠ 109 → c ≠ 77 →
    sgrLoop c buf (l.map SrcItem.ok ++ SrcItem.ok t :: rest) =
      (Except.ok (buf ++ c :: l, t), l ++ [t], rest) := by
  intro l
  induction l with
  | nil =>
    intro c buf rest _ hc1 hc2
    rw [List.map_nil, List.nil_append, sgrLoop, if_neg (by tauto),
      sgrLoop_term t ht]
    simp
  | cons x xs ih =>
    intro c buf rest hl hc1 hc2
    have hx := hl x (List.mem_cons_self x xs)
    have hxs : ∀ b ∈ xs, b ≠ 109 ∧ b ≠ 77 := fun b hb => hl b (List.mem_cons_of_mem x hb)
    rw [List.map_cons, List.cons_append, sgrLoop, if_neg (by tauto),
      ih x (buf ++ [c]) rest hxs hx.1 hx.2]
    simp

theorem numLoop_run (t : Nat) (ht : 64 ≤ t) (ht2 : t ≤ 126) :
    ∀ (l : List Nat) (c : Nat) (buf : List Nat) (rest : List SrcItem),
    (∀ b ∈ l, b < 64 ∨ 126 < b) →
    numLoop c buf (l.map SrcItem.ok ++ SrcItem.ok t :: rest) =
      (Except.ok (buf ++ l, t), l ++ [t], rest) := by
  intro l
  induction l with
  | nil =>
    intro c buf rest _
    rw [List.map_nil, List.nil_append, numLoop, if_neg (by omega)]
    simp
  | cons x xs ih =>
    intro c buf rest hl
    have hx := hl x (List.mem_cons_self x xs)
    have hxs : ∀ b ∈ xs, b < 64 ∨ 126 < b := fun b hb => hl b (List.mem_cons_of_mem x hb)
    rw [List.map_cons, List.cons_append, numLoop, if_pos hx,
      ih x (buf ++ [x]) rest hxs]
    simp

/-! ## UTF-8 facts -/

theorem utf8DecodeFirst_ascii (b : Nat) (hb : b ≤ 127) (rest : List Nat) :
    utf8DecodeFirst (b :: rest) = some (b, rest) := by
  simp only [utf8DecodeFirst]
  rw [if_pos hb]

theorem utf8ValidAllFuel_ascii (l : List Nat) (hl : ∀ b ∈ l, b ≤ 127) :
    ∀ fuel, l.length ≤ fuel → utf8ValidAllFuel fuel l = true := by
  induction l with
  | nil =>
    intro fuel _
    match fuel with
    | 0 => rfl
    | f + 1 => rfl
  | cons b t ih =>
    intro fuel hf
    match fuel with
    | f + 1 =>
      rw [utf8ValidAllFuel, utf8DecodeFirst_ascii b (hl b (List.mem_cons_self b t))]
      exact ih (fun x hx => hl x (List.mem_cons_of_mem b hx)) f
        (by simp only [List.length_cons] at hf; omega)

theorem utf8ValidAll_ascii (l : List Nat) (hl : ∀ b ∈ l, b ≤ 127) :
    utf8ValidAll l = true :=
  utf8ValidAllFuel_ascii l hl l.length (Nat.le_refl _)

/-! ## Evaluation lemmas for the main decode paths -/

theorem pop_ok (b : Nat) (r : List SrcItem) :
    pop (SrcItem.ok b :: r) = (Except.ok b, [b], r) := rfl

theorem try_esc (c : Nat) (r : List SrcItem) :
    try_parse_event 27 (SrcItem.ok c :: r) =
      ((escTail c r).1, c :: (escTail c r).2.1, (escTail c r).2.2) := by
  simp [try_parse_event]

theorem escTail_csi : escTail 91 = parse_csi := rfl

theorem parse_csi_run (b : Nat) (r : List SrcItem) :
    parse_csi (SrcItem.ok b :: r) =
      ((csiBody b r).1, b :: (csiBody b r).2.1, (csiBody b r).2.2) := by
  simp [parse_csi, mbind, pop]

theorem csiBody_sgr : csiBody 60 = sgrRead := rfl

theorem csiBody_x10 : csiBody 77 = x10Read := rfl

theorem csiBody_digit (b : Nat) (hb : 48 ≤ b ∧ b ≤ 57) : csiBody b = numRead b := by
  unfold csiBody
  rw [if_neg (show ¬b = 91 by omega), if_neg (show ¬b = 68 by omega),
    if_neg (show ¬b = 67 by omega), if_neg (show ¬b = 65 by omega),
    if_neg (show ¬b = 66 by omega), if_neg (show ¬b = 72 by omega),
    if_neg (show ¬b = 70 by omega), if_neg (show ¬b = 77 by omega),
    if_neg (show ¬b = 60 by omega), if_pos hb]

theorem x10Read_run (b1 b2 b3 : Nat) (rest : List SrcItem) :
    x10Read (SrcItem.ok b1 :: SrcItem.ok b2 :: SrcItem.ok b3 :: rest) =
      (x10Event b1 b2 b3, [b1, b2, b3], rest) := by
  simp [x10Read, mbind, pop, liftE]

theorem sgrRead_run (c0 t : Nat) (l : List Nat) (rest : List SrcItem)
    (hl : ∀ b ∈ l, b ≠ 109 ∧ b ≠ 77) (hc0 : c0 ≠ 109 ∧ c0 ≠ 77)
    (ht : t = 109 ∨ t = 77) :
    sgrRead (SrcItem.ok c0 :: (l.map SrcItem.ok ++ SrcItem.ok t :: rest)) =
      (sgrEvent (c0 :: l) t, c0 :: (l ++ [t]), rest) := by
  have hloop := sgrLoop_run t ht l c0 [] rest hl hc0.1 hc0.2
  simp [sgrRead, mbind, pop, liftE, hloop]

theorem numRead_run (b t : Nat) (l : List Nat) (rest : List SrcItem)
    (hl : ∀ x ∈ l, x < 64 ∨ 126 < x) (ht : 64 ≤ t) (ht2 : t ≤ 126) :
    numRead b (l.map SrcItem.ok ++ SrcItem.ok t :: rest) =
      (if t = 77 then rxvtEvent (b :: l)
       else if t = 126 then specialKeyEvent (b :: l)
       else Except.error DErr.invalidInput, l ++ [t], rest) := by
  have hloop := numLoop_run t ht ht2 l b [b] rest hl
  by_cases h77 : t = 77
  · subst h77
    simp [numRead, mbind, liftE, hloop]
  · by_cases h126 : t = 126
    · subst h126
      simp [numRead, mbind, liftE, hloop, h77]
    · simp [numRead, mbind, liftE, mthrow, hloop, h77, h126]

/-! ## Spec-side mappings, written from the wording of the claims, to be
compared against the decoder defined above -/

/-- Spec-side X10 mapping, following the claim text: cb is b1 read as a
signed byte minus 32; the button class is cb taken bitwise with 0b11, here
rendered as the Euclidean remainder mod 4, which coincides with the low two
bits of a two's complement value; the wheel test is bit 0x40 of cb, that is
bit 6 of its low byte; coordinates are max(b2-32,0) and max(b3-32,0). -/
def x10Claim (b1 b2 b3 : Nat) : MouseEvent :=
  let cb : Int := (if b1 < 128 then (b1 : Int) else (b1 : Int) - 256) - 32
  let cx : Nat := (max ((b2 : Int) - 32) 0).toNat
  let cy : Nat := (max ((b3 : Int) - 32) 0).toNat
  if cb % 4 = 0 then
    if cb % 256 / 64 % 2 = 1 then MouseEvent.Press MouseButton.WheelUp cx cy
    else MouseEvent.Press MouseButton.Left cx cy
  else if cb % 4 = 1 then
    if cb % 256 / 64 % 2 = 1 then MouseEvent.Press MouseButton.WheelDown cx cy
    else MouseEvent.Press MouseButton.Middle cx cy
  else if cb % 4 = 2 then MouseEvent.Press MouseButton.Right cx cy
  else MouseEvent.Release cx cy

/-- Spec-side xterm/SGR mapping, following the claim text: cb in {0,1,2,64,65}
gives the button, Press on terminator M (77) and Release on m (109); cb 32 is
Hold and cb 3 is Release regardless of terminator; any other cb is a decode
error, surfacing as Unsupported with the captured bytes. -/
def sgrClaim (cb cx cy t : Nat) (buf : List Nat) : Event :=
  if cb = 0 ∨ cb = 1 ∨ cb = 2 ∨ cb = 64 ∨ cb = 65 then
    let button : MouseButton :=
      if cb = 0 then MouseButton.Left
      else if cb = 1 then MouseButton.Middle
      else if cb = 2 then MouseButton.Right
      else if cb = 64 then MouseButton.WheelUp
      else MouseButton.WheelDown
    if t = 77 then Event.Mouse (MouseEvent.Press button cx cy)
    else Event.Mouse (MouseEvent.Release cx cy)
  else if cb = 32 then Event.Mouse (MouseEvent.Hold cx cy)
  else if cb = 3 then Event.Mouse (MouseEvent.Release cx cy)
  else Event.Unsupported buf

/-- Spec-side rxvt mapping, following the claim text. -/
def rxvtClaim (cb cx cy : Nat) (buf : List Nat) : Event :=
  if cb = 32 then Event.Mouse (MouseEvent.Press MouseButton.Left cx cy)
  else if cb = 33 then Event.Mouse (MouseEvent.Press MouseButton.Middle cx cy)
  else if cb = 34 then Event.Mouse (MouseEvent.Press MouseButton.Right cx cy)
  else if cb = 35 then Event.Mouse (MouseEvent.Release cx cy)
  else if cb = 64 then Event.Mouse (MouseEvent.Hold cx cy)
  else if cb = 96 ∨ cb = 97 then Event.Mouse (MouseEvent.Press MouseButton.WheelUp cx cy)
  else Event.Unsupported buf

/-- Spec-side special-key mapping for a numbered escape terminated by a tilde,
following the claim text; a decode error surfaces as Unsupported with the
captured bytes. -/
def specialKeyClaim (n : Nat) (buf : List Nat) : Event :=
  if n = 1 ∨ n = 7 then Event.Key Key.Home
  else if n = 2 then Event.Key Key.Insert
  else if n = 3 then Event.Key Key.Delete
  else if n = 4 ∨ n = 8 then Event.Key Key.End
  else if n = 5 then Event.Key Key.PageUp
  else if n = 6 then Event.Key Key.PageDown
  else if 11 ≤ n ∧ n ≤ 15 then Event.Key (Key.F (n - 10))
  else if 17 ≤ n ∧ n ≤ 21 then Event.Key (Key.F (n - 11))
  else if 23 ≤ n ∧ n ≤ 24 then Event.Key (Key.F (n - 12))
  else Event.Unsupported buf

/-! ## Claim theorems -/

/-- C1: for every first byte and every byte source, parse_event returns
exactly one Event together with the captured byte buffer, which is the first
byte followed by the ok bytes of the consumed source prefix; a successful
inner decode passes its event through, and every inner decode error, of any
kind, is converted into an Unsupported event whose payload is the captured
buffer; no error is ever returned. -/
theorem C1_entry (item : Nat) (src : List SrcItem) :
    ∃ k, k ≤ src.length ∧
      (parse_event item src).2 = src.drop k ∧
      (parse_event item src).1.2 = item :: okBytes (src.take k) ∧
      (∀ e, (try_parse_event item src).1 = Except.ok e →
        (parse_event item src).1.1 = e) ∧
      (∀ err, (try_parse_event item src).1 = Except.error err →
        (parse_event item src).1.1 = Event.Unsupported ((parse_event item src).1.2)) := by
  obtain ⟨k, hk, hr, hc⟩ := parse_event_consumedOK item src
  refine ⟨k, hk, hr, hc, ?_, ?_⟩
  · intro e he
    rw [parse_event_try_ok he]
  · intro err herr
    rw [parse_event_try_error herr]

/-- C1 witness: at the concrete input ESC followed by a source error, the
inner decode fails and the entry point converts the failure into an
Unsupported event carrying the captured buffer. -/
theorem C1_entry_witness :
    (parse_event 27 [SrcItem.err]).1.1 =
      Event.Unsupported ((parse_event 27 [SrcItem.err]).1.2) := by
  obtain ⟨k, _, _, _, _, h5⟩ := C1_entry 27 [SrcItem.err]
  exact h5 DErr.srcErr (by decide)

/-- C2 evidence: on the concrete input ESC, then the bytes O and X read
successfully from the source, the decoder returns an Unsupported event whose
payload is 27, 48, 88 while the bytes actually consumed are 27, 79, 88 (the
code stores the digit zero byte 48 where the byte 79 was read), so the
Unsupported payload differs from the consumed bytes. -/
theorem C2_unsupported_payload_bug :
    parse_event 27 [SrcItem.ok 79, SrcItem.ok 88] =
      ((Event.Unsupported [27, 48, 88], [27, 79, 88]), []) ∧
    27 :: okBytes [SrcItem.ok 79, SrcItem.ok 88] = [27, 79, 88] ∧
    ([27, 48, 88] : List Nat) ≠ [27, 79, 88] := by
  refine ⟨by decide, by decide, by decide⟩

/-- C9: the dispatcher resolves single control bytes by its fixed table,
reading no further bytes: newline and carriage return give Char newline, tab
gives Char tab, 127 gives Backspace, bytes 1 to 26 not claimed by an earlier
row give Ctrl of letter a plus offset, bytes 28 to 31 give Ctrl of digit 4
plus offset, and 0 gives Null. -/
theorem C9_control_table :
    (∀ src, try_parse_event 10 src = (Except.ok (Event.Key (Key.Char 10)), [], src)) ∧
    (∀ src, try_parse_event 13 src = (Except.ok (Event.Key (Key.Char 10)), [], src)) ∧
    (∀ src, try_parse_event 9 src = (Except.ok (Event.Key (Key.Char 9)), [], src)) ∧
    (∀ src, try_parse_event 127 src = (Except.ok (Event.Key Key.Backspace), [], src)) ∧
    (∀ b src, 1 ≤ b → b ≤ 26 → b ≠ 9 → b ≠ 10 → b ≠ 13 →
      try_parse_event b src = (Except.ok (Event.Key (Key.Ctrl (97 + (b - 1)))), [], src)) ∧
    (∀ b src, 28 ≤ b → b ≤ 31 →
      try_parse_event b src = (Except.ok (Event.Key (Key.Ctrl (52 + (b - 28)))), [], src)) ∧
    (∀ src, try_parse_event 0 src = (Except.ok (Event.Key Key.Null), [], src)) := by
  refine ⟨fun src => by simp [try_parse_event],
    fun src => by simp [try_parse_event],
    fun src => by simp [try_parse_event],
    fun src => by simp [try_parse_event],
    fun b src h1 h2 h3 h4 h5 => ?_,
    fun b src h1 h2 => ?_,
    fun src => by simp [try_parse_event]⟩
  · have hb : 97 + (b - 1) = b - 1 + 97 := by omega
    simp only [try_parse_event, if_neg (by omega : ¬b = 27),
      if_neg (by omega : ¬(b = 10 ∨ b = 13)), if_neg (by omega : ¬b = 9),
      if_neg (by omega : ¬b = 127), if_pos (by omega : 1 ≤ b ∧ b ≤ 26), hb]
  · have hb : 52 + (b - 28) = b - 28 + 52 := by omega
    simp only [try_parse_event, if_neg (by omega : ¬b = 27),
      if_neg (by omega : ¬(b = 10 ∨ b = 13)), if_neg (by omega : ¬b = 9),
      if_neg (by omega : ¬b = 127), if_neg (by omega : ¬(1 ≤ b ∧ b ≤ 26)),
      if_pos (by omega : 28 ≤ b ∧ b ≤ 31), hb]

/-- C9 witness: byte 1 resolves to Ctrl a (code point 97) and byte 28 to
Ctrl 4 (code point 52), with nothing read from the source. -/
theorem C9_control_table_witness :
    try_parse_event 1 [] = (Except.ok (Event.Key (Key.Ctrl 97)), [], []) ∧
    try_parse_event 28 [] = (Except.ok (Event.Key (Key.Ctrl 52)), [], []) :=
  ⟨C9_control_table.2.2.2.2.1 1 [] (by norm_num) (by norm_num) (by norm_num)
      (by norm_num) (by norm_num),
    C9_control_table.2.2.2.2.2.1 28 [] (by norm_num) (by norm_num)⟩

/-- C10: the X10 button classification is total: for every button byte and
any two coordinate bytes read successfully after it, the decoder produces a
Mouse event, never the invalid-input error of the unreachable match arm. -/
theorem C10_x10_total (b1 b2 b3 : Nat) (src : List SrcItem) :
    ∃ me, try_parse_event 27
        (SrcItem.ok 91 :: SrcItem.ok 77 :: SrcItem.ok b1 :: SrcItem.ok b2 ::
          SrcItem.ok b3 :: src) =
      (Except.ok (Event.Mouse me), [91, 77, b1, b2, b3], src) := by
  rw [try_esc, escTail_csi, parse_csi_run, csiBody_x10, x10Read_run]
  have h4 : (b1 + 224) % 256 % 4 = 0 ∨ (b1 + 224) % 256 % 4 = 1 ∨
      (b1 + 224) % 256 % 4 = 2 ∨ (b1 + 224) % 256 % 4 = 3 := by omega
  rcases h4 with h | h | h | h
  · by_cases hb : (b1 + 224) % 256 / 64 % 2 = 1
    · refine ⟨MouseEvent.Press MouseButton.WheelUp (b2 - 32) (b3 - 32), ?_⟩
      simp [x10Event, h, hb]
    · refine ⟨MouseEvent.Press MouseButton.Left (b2 - 32) (b3 - 32), ?_⟩
      simp [x10Event, h, hb]
  · by_cases hb : (b1 + 224) % 256 / 64 % 2 = 1
    · refine ⟨MouseEvent.Press MouseButton.WheelDown (b2 - 32) (b3 - 32), ?_⟩
      simp [x10Event, h, hb]
    · refine ⟨MouseEvent.Press MouseButton.Middle (b2 - 32) (b3 - 32), ?_⟩
      simp [x10Event, h, hb]
  · refine ⟨MouseEvent.Press MouseButton.Right (b2 - 32) (b3 - 32), ?_⟩
    simp [x10Event, h]
  · refine ⟨MouseEvent.Release (b2 - 32) (b3 - 32), ?_⟩
    simp [x10Event, h]

/-- C5: after ESC [ M the decoder reads exactly three further bytes and
produces the mouse event given by the spec-side mapping x10Claim: signed
cb = b1 as i8 minus 32, class cb taken mod 4 with the 0x40 wheel bit, and
coordinates clamped with max against 0 before widening; the source beyond the
three bytes is untouched. -/
theorem C5_x10_mouse (b1 b2 b3 : Nat) (h1 : b1 < 256) (h2 : b2 < 256)
    (h3 : b3 < 256) (rest : List SrcItem) :
    parse_event 27 (SrcItem.ok 91 :: SrcItem.ok 77 :: SrcItem.ok b1 ::
        SrcItem.ok b2 :: SrcItem.ok b3 :: rest) =
      ((Event.Mouse (x10Claim b1 b2 b3), [27, 91, 77, b1, b2, b3]), rest) := by
  have htry : try_parse_event 27 (SrcItem.ok 91 :: SrcItem.ok 77 :: SrcItem.ok b1 ::
      SrcItem.ok b2 :: SrcItem.ok b3 :: rest) =
      (x10Event b1 b2 b3, [91, 77, b1, b2, b3], rest) := by
    rw [try_esc, escTail_csi, parse_csi_run, csiBody_x10, x10Read_run]
  have hmod4 : ((if b1 < 128 then (b1 : Int) else (b1 : Int) - 256) - 32) % 4 =
      (((b1 + 224) % 256 % 4 : Nat) : Int) := by
    split <;> omega
  have hbit : ((if b1 < 128 then (b1 : Int) else (b1 : Int) - 256) - 32) % 256 / 64 % 2 =
      (((b1 + 224) % 256 / 64 % 2 : Nat) : Int) := by
    split <;> omega
  have hcx : (max ((b2 : Int) - 32) 0).toNat = b2 - 32 := by
    rcases le_or_lt 32 b2 with h | h
    · rw [max_eq_left (by omega)]; omega
    · rw [max_eq_right (by omega)]; omega
  have hcy : (max ((b3 : Int) - 32) 0).toNat = b3 - 32 := by
    rcases le_or_lt 32 b3 with h | h
    · rw [max_eq_left (by omega)]; omega
    · rw [max_eq_right (by omega)]; omega
  have hev : x10Event b1 b2 b3 = Except.ok (Event.Mouse (x10Claim b1 b2 b3)) := by
    have h4 : (b1 + 224) % 256 % 4 = 0 ∨ (b1 + 224) % 256 % 4 = 1 ∨
        (b1 + 224) % 256 % 4 = 2 ∨ (b1 + 224) % 256 % 4 = 3 := by omega
    rcases h4 with h | h | h | h <;>
      by_cases hb : (b1 + 224) % 256 / 64 % 2 = 1 <;>
      (simp [x10Event, x10Claim, h, hb, hmod4, hbit, hcx, hcy]
       all_goals rw [if_neg (by omega)])
  have hok : (try_parse_event 27 (SrcItem.ok 91 :: SrcItem.ok 77 :: SrcItem.ok b1 ::
      SrcItem.ok b2 :: SrcItem.ok b3 :: rest)).1 =
      Except.ok (Event.Mouse (x10Claim b1 b2 b3)) := by
    rw [htry, hev]
  rw [parse_event_try_ok hok, htry]

/-- C5 witness: the concrete X10 report with button byte 32 (class 0, wheel
bit clear) and coordinate bytes 40 and 52 decodes to a left press at (8, 20),
consuming exactly the three bytes. -/
theorem C5_x10_mouse_witness :
    parse_event 27 [SrcItem.ok 91, SrcItem.ok 77, SrcItem.ok 32, SrcItem.ok 40,
        SrcItem.ok 52] =
      ((Event.Mouse (x10Claim 32 40 52), [27, 91, 77, 32, 40, 52]), []) ∧
    x10Claim 32 40 52 = MouseEvent.Press MouseButton.Left 8 20 :=
  ⟨C5_x10_mouse 32 40 52 (by norm_num) (by norm_num) (by norm_num) [], by decide⟩

theorem parse_event_buf (item : Nat) (src : List SrcItem) :
    (parse_event item src).1.2 = item :: (try_parse_event item src).2.1 := by
  cases h : (try_parse_event item src).1 with
  | ok e => rw [parse_event_try_ok h]
  | error err => rw [parse_event_try_error h]

/-- C3 counterexample: no constant bounds the number of bytes a decode attempt
reads: for every candidate bound N there is a source (an xterm/SGR mouse
report whose parameter list is N+1 digits long) on which parse_event captures
more than N bytes beyond the first, so the claimed fixed bound, a few dozen
bytes, does not exist. -/
theorem C3_no_uniform_bound :
    ¬ ∃ N : Nat, ∀ (item : Nat) (src : List SrcItem),
      (parse_event item src).1.2.length - 1 ≤ N := by
  rintro ⟨N, h⟩
  have hmem : ∀ b ∈ List.replicate N 48, b ≠ 109 ∧ b ≠ 77 := by
    intro b hb
    have := List.eq_of_mem_replicate hb
    omega
  have hbuf : (parse_event 27 (SrcItem.ok 91 :: SrcItem.ok 60 :: SrcItem.ok 48 ::
      ((List.replicate N 48).map SrcItem.ok ++ SrcItem.ok 77 :: []))).1.2.length = N + 5 := by
    rw [parse_event_buf, try_esc, escTail_csi, parse_csi_run, csiBody_sgr,
      sgrRead_run 48 77 (List.replicate N 48) [] hmem
        (by constructor <;> norm_num) (Or.inr rfl)]
    simp
  have := h 27 (SrcItem.ok 91 :: SrcItem.ok 60 :: SrcItem.ok 48 ::
    ((List.replicate N 48).map SrcItem.ok ++ SrcItem.ok 77 :: []))
  omega

/-- C3 amended: every decode attempt produces exactly one Event and
terminates; the captured buffer, and hence the number of bytes read, is
bounded by the length of the byte source plus the initial byte, though not
by any constant independent of the source. -/
theorem C3_bounded_by_source (item : Nat) (src : List SrcItem) :
    ∃ e buf rest, parse_event item src = ((e, buf), rest) ∧
      buf.length ≤ src.length + 1 ∧ rest.length ≤ src.length := by
  obtain ⟨k, hk, hr, hc⟩ := parse_event_consumedOK item src
  refine ⟨(parse_event item src).1.1, (parse_event item src).1.2,
    (parse_event item src).2, rfl, ?_, ?_⟩
  · rw [hc]
    have h1 := List.length_filterMap_le
      (fun i => match i with | SrcItem.ok b => some b | SrcItem.err => none)
      (src.take k)
    have h2 : (src.take k).length ≤ src.length := by
      rw [List.length_take]
      omega
    simp only [okBytes, List.length_cons]
    omega
  · rw [hr, List.length_drop]
    omega

/-! ## Digit-list side conditions and the parameter-list pipelines -/

theorem digitsOf_ne59 (n : Nat) : ∀ x ∈ digitsOf n, x ≠ 59 := by
  intro x hx
  have := digitsOf_mem n x hx
  omega

theorem L3_mem (a b c : Nat) :
    ∀ x ∈ digitsOf a ++ 59 :: (digitsOf b ++ 59 :: digitsOf c),
      (48 ≤ x ∧ x ≤ 57) ∨ x = 59 := by
  intro x hx
  rcases List.mem_append.mp hx with h | h
  · exact Or.inl (digitsOf_mem a x h)
  · rcases List.mem_cons.mp h with rfl | h2
    · exact Or.inr rfl
    · rcases List.mem_append.mp h2 with h3 | h3
      · exact Or.inl (digitsOf_mem b x h3)
      · rcases List.mem_cons.mp h3 with rfl | h4
        · exact Or.inr rfl
        · exact Or.inl (digitsOf_mem c x h4)

theorem L3_valid (a b c : Nat) :
    utf8ValidAll (digitsOf a ++ 59 :: (digitsOf b ++ 59 :: digitsOf c)) = true :=
  utf8ValidAll_ascii _ (by intro x hx; have := L3_mem a b c x hx; omega)

theorem L3_split (a b c : Nat) :
    splitSemi (digitsOf a ++ 59 :: (digitsOf b ++ 59 :: digitsOf c)) =
      [digitsOf a, digitsOf b, digitsOf c] := by
  rw [splitSemi_append _ (digitsOf_ne59 a), splitSemi_append _ (digitsOf_ne59 b),
    splitSemi_no_sep _ (digitsOf_ne59 c)]

/-- Running the dispatcher on a full xterm/SGR report built from three
numbers: the captured bytes are the whole report and the event is sgrEvent of
the parameter bytes. -/
theorem sgr_try_run (cb cx cy t : Nat) (rest : List SrcItem)
    (ht : t = 77 ∨ t = 109) :
    try_parse_event 27 (SrcItem.ok 91 :: SrcItem.ok 60 ::
        ((digitsOf cb ++ 59 :: (digitsOf cx ++ 59 :: digitsOf cy)).map SrcItem.ok ++
          SrcItem.ok t :: rest)) =
      (sgrEvent (digitsOf cb ++ 59 :: (digitsOf cx ++ 59 :: digitsOf cy)) t,
        91 :: 60 :: ((digitsOf cb ++ 59 :: (digitsOf cx ++ 59 :: digitsOf cy)) ++ [t]),
        rest) := by
  match hd : digitsOf cb with
  | [] => exact absurd hd (digitsOf_ne_nil cb)
  | d :: ds =>
    have hdd : ∀ x ∈ d :: ds, 48 ≤ x ∧ x ≤ 57 := by
      rw [← hd]; exact digitsOf_mem cb
    have hd1 := hdd d (List.mem_cons_self d ds)
    have hmem : ∀ x ∈ ds ++ 59 :: (digitsOf cx ++ 59 :: digitsOf cy),
        x ≠ 109 ∧ x ≠ 77 := by
      intro x hx
      have hx2 : x ∈ digitsOf cb ++ 59 :: (digitsOf cx ++ 59 :: digitsOf cy) := by
        rw [hd]
        rcases List.mem_append.mp hx with h | h
        · exact List.mem_append.mpr (Or.inl (List.mem_cons_of_mem d h))
        · exact List.mem_append.mpr (Or.inr h)
      have := L3_mem cb cx cy x hx2
      omega
    rw [try_esc, escTail_csi]
    simp only [List.cons_append, List.map_cons]
    rw [parse_csi_run, csiBody_sgr,
      sgrRead_run d t (ds ++ 59 :: (digitsOf cx ++ 59 :: digitsOf cy)) rest hmem
        ⟨by omega, by omega⟩ (or_comm.mp ht)]

/-- Running the dispatcher on a full numbered escape whose parameter bytes
are d followed by ds and whose terminator is t in the final-byte range. -/
theorem num_try_run (d : Nat) (ds : List Nat) (t : Nat) (rest : List SrcItem)
    (hd : 48 ≤ d ∧ d ≤ 57) (hds : ∀ x ∈ ds, x < 64 ∨ 126 < x)
    (ht : 64 ≤ t) (ht2 : t ≤ 126) :
    try_parse_event 27 (SrcItem.ok 91 :: SrcItem.ok d ::
        (ds.map SrcItem.ok ++ SrcItem.ok t :: rest)) =
      (if t = 77 then rxvtEvent (d :: ds)
       else if t = 126 then specialKeyEvent (d :: ds)
       else Except.error DErr.invalidInput, 91 :: d :: (ds ++ [t]), rest) := by
  rw [try_esc, escTail_csi, parse_csi_run, csiBody_digit d hd,
    numRead_run d t ds rest hds ht ht2]

theorem parse_event_of_try_ok {item : Nat} {src : List SrcItem} {e : Event}
    {c : List Nat} {r : List SrcItem}
    (h : try_parse_event item src = (Except.ok e, c, r)) :
    parse_event item src = ((e, item :: c), r) := by
  have h1 : (try_parse_event item src).1 = Except.ok e := by rw [h]
  rw [parse_event_try_ok h1, h]

theorem parse_event_of_try_error {item : Nat} {src : List SrcItem} {err : DErr}
    {c : List Nat} {r : List SrcItem}
    (h : try_parse_event item src = (Except.error err, c, r)) :
    parse_event item src = ((Event.Unsupported (item :: c), item :: c), r) := by
  have h1 : (try_parse_event item src).1 = Except.error err := by rw [h]
  rw [parse_event_try_error h1, h]

theorem sgrEvent_digits (cb cx cy t : Nat) (hcx : cx ≤ 65535) (hcy : cy ≤ 65535) :
    sgrEvent (digitsOf cb ++ 59 :: (digitsOf cx ++ 59 :: digitsOf cy)) t =
      if cb ≤ 65535 then
        if cb ≤ 2 ∨ (64 ≤ cb ∧ cb ≤ 65) then
          if t = 77 then
            Except.ok (Event.Mouse (MouseEvent.Press
              (if cb = 0 then MouseButton.Left
               else if cb = 1 then MouseButton.Middle
               else if cb = 2 then MouseButton.Right
               else if cb = 64 then MouseButton.WheelUp
               else MouseButton.WheelDown) cx cy))
          else if t = 109 then Except.ok (Event.Mouse (MouseEvent.Release cx cy))
          else Except.error DErr.invalidInput
        else if cb = 32 then Except.ok (Event.Mouse (MouseEvent.Hold cx cy))
        else if cb = 3 then Except.ok (Event.Mouse (MouseEvent.Release cx cy))
        else Except.error DErr.invalidInput
      else Except.error DErr.invalidInput := by
  unfold sgrEvent
  rw [L3_valid cb cx cy, L3_split cb cx cy]
  simp only [List.map_cons, List.map_nil, rustParse_digitsOf,
    if_pos hcx, if_pos hcy]
  by_cases hcb : cb ≤ 65535
  · simp [popNum, hcb]
  · simp [popNum, hcb]

/-- C4 amended, mapping part: decoding ESC [ < with parameters cb, cx, cy and
terminator M or m yields the spec-side sgrClaim result (button mapping for cb
in the table, a decode error surfacing as Unsupported otherwise), with fewer
than three parameters or a non-numeric parameter among the first three also a
decode error, while parameters beyond the third are ignored. -/
theorem C4_sgr_mouse :
    (∀ cb cx cy t rest, cx ≤ 65535 → cy ≤ 65535 → t = 77 ∨ t = 109 →
      parse_event 27 (SrcItem.ok 91 :: SrcItem.ok 60 ::
          ((digitsOf cb ++ 59 :: (digitsOf cx ++ 59 :: digitsOf cy)).map SrcItem.ok ++
            SrcItem.ok t :: rest)) =
        ((sgrClaim cb cx cy t (27 :: 91 :: 60 ::
            ((digitsOf cb ++ 59 :: (digitsOf cx ++ 59 :: digitsOf cy)) ++ [t])),
          27 :: 91 :: 60 ::
            ((digitsOf cb ++ 59 :: (digitsOf cx ++ 59 :: digitsOf cy)) ++ [t])), rest)) ∧
    (parse_event 27 [SrcItem.ok 91, SrcItem.ok 60, SrcItem.ok 120, SrcItem.ok 59,
        SrcItem.ok 53, SrcItem.ok 59, SrcItem.ok 49, SrcItem.ok 48, SrcItem.ok 77]).1.1 =
      Event.Unsupported [27, 91, 60, 120, 59, 53, 59, 49, 48, 77] ∧
    (parse_event 27 [SrcItem.ok 91, SrcItem.ok 60, SrcItem.ok 48, SrcItem.ok 59,
        SrcItem.ok 53, SrcItem.ok 77]).1.1 =
      Event.Unsupported [27, 91, 60, 48, 59, 53, 77] ∧
    (parse_event 27 [SrcItem.ok 91, SrcItem.ok 60, SrcItem.ok 48, SrcItem.ok 59,
        SrcItem.ok 53, SrcItem.ok 59, SrcItem.ok 49, SrcItem.ok 48, SrcItem.ok 59,
        SrcItem.ok 77]).1.1 =
      Event.Mouse (MouseEvent.Press MouseButton.Left 5 10) := by
  refine ⟨?_, by decide, by decide, by decide⟩
  intro cb cx cy t rest hcx hcy ht
  have htry := sgr_try_run cb cx cy t rest ht
  have hev := sgrEvent_digits cb cx cy t hcx hcy
  by_cases hcb : cb ≤ 65535
  · rw [if_pos hcb] at hev
    by_cases htab : cb ≤ 2 ∨ (64 ≤ cb ∧ cb ≤ 65)
    · rw [if_pos htab] at hev
      rcases ht with rfl | rfl
      · rw [if_pos rfl] at hev
        rw [hev] at htry
        rw [parse_event_of_try_ok htry]
        have htab5 : cb = 0 ∨ cb = 1 ∨ cb = 2 ∨ cb = 64 ∨ cb = 65 := by omega
        simp only [sgrClaim, if_pos htab5, if_pos rfl, if_true, if_false]
      · rw [if_neg (by norm_num), if_pos rfl] at hev
        rw [hev] at htry
        rw [parse_event_of_try_ok htry]
        have htab5 : cb = 0 ∨ cb = 1 ∨ cb = 2 ∨ cb = 64 ∨ cb = 65 := by omega
        simp only [sgrClaim, if_pos htab5, if_neg (by norm_num : ¬(109 : Nat) = 77), if_true, if_false]
    · rw [if_neg htab] at hev
      by_cases h32 : cb = 32
      · rw [if_pos h32] at hev
        rw [hev] at htry
        rw [parse_event_of_try_ok htry]
        simp only [sgrClaim, if_neg (by omega : ¬(cb = 0 ∨ cb = 1 ∨ cb = 2 ∨ cb = 64 ∨ cb = 65)),
          if_pos h32, if_true, if_false]
      · rw [if_neg h32] at hev
        by_cases h3 : cb = 3
        · rw [if_pos h3] at hev
          rw [hev] at htry
          rw [parse_event_of_try_ok htry]
          simp only [sgrClaim, if_neg (by omega : ¬(cb = 0 ∨ cb = 1 ∨ cb = 2 ∨ cb = 64 ∨ cb = 65)),
            if_neg h32, if_pos h3, if_true, if_false]
        · rw [if_neg h3] at hev
          rw [hev] at htry
          rw [parse_event_of_try_error htry]
          simp only [sgrClaim, if_neg (by omega : ¬(cb = 0 ∨ cb = 1 ∨ cb = 2 ∨ cb = 64 ∨ cb = 65)),
            if_neg h32, if_neg h3, if_true, if_false]
  · rw [if_neg hcb] at hev
    rw [hev] at htry
    rw [parse_event_of_try_error htry]
    simp only [sgrClaim, if_neg (by omega : ¬(cb = 0 ∨ cb = 1 ∨ cb = 2 ∨ cb = 64 ∨ cb = 65)),
      if_neg (by omega : ¬cb = 32), if_neg (by omega : ¬cb = 3), if_true, if_false]

/-- C4 witness: the mapping applied at cb 0, cx 5, cy 10 with terminator M
gives a left press at (5, 10), and with terminator m a release. -/
theorem C4_sgr_mouse_witness :
    parse_event 27 (SrcItem.ok 91 :: SrcItem.ok 60 ::
        ((digitsOf 0 ++ 59 :: (digitsOf 5 ++ 59 :: digitsOf 10)).map SrcItem.ok ++
          SrcItem.ok 77 :: [])) =
      ((sgrClaim 0 5 10 77 (27 :: 91 :: 60 ::
          ((digitsOf 0 ++ 59 :: (digitsOf 5 ++ 59 :: digitsOf 10)) ++ [77])),
        27 :: 91 :: 60 ::
          ((digitsOf 0 ++ 59 :: (digitsOf 5 ++ 59 :: digitsOf 10)) ++ [77])), []) ∧
    sgrClaim 0 5 10 77 [] = Event.Mouse (MouseEvent.Press MouseButton.Left 5 10) ∧
    sgrClaim 0 5 10 109 [] = Event.Mouse (MouseEvent.Release 5 10) :=
  ⟨C4_sgr_mouse.1 0 5 10 77 [] (by norm_num) (by norm_num) (Or.inl rfl),
    by decide, by decide⟩

/-- C4 counterexample: an xterm/SGR report with four parameters, 0;5;10;7
terminated by M, decodes successfully to a left press at (5, 10) instead of
being rejected, so the wrong-count clause of the claim fails for extra
parameters. -/
theorem C4_extra_param_accepted :
    try_parse_event 27 [SrcItem.ok 91, SrcItem.ok 60, SrcItem.ok 48, SrcItem.ok 59,
        SrcItem.ok 53, SrcItem.ok 59, SrcItem.ok 49, SrcItem.ok 48, SrcItem.ok 59,
        SrcItem.ok 55, SrcItem.ok 77] =
      (Except.ok (Event.Mouse (MouseEvent.Press MouseButton.Left 5 10)),
        [91, 60, 48, 59, 53, 59, 49, 48, 59, 55, 77], []) := by
  decide

/-- Dispatcher run for a numbered escape with one numeric parameter. -/
theorem num1_try_run (n t : Nat) (rest : List SrcItem) (ht : 64 ≤ t) (ht2 : t ≤ 126) :
    try_parse_event 27 (SrcItem.ok 91 ::
        ((digitsOf n).map SrcItem.ok ++ SrcItem.ok t :: rest)) =
      (if t = 77 then rxvtEvent (digitsOf n)
       else if t = 126 then specialKeyEvent (digitsOf n)
       else Except.error DErr.invalidInput, 91 :: (digitsOf n ++ [t]), rest) := by
  match hd : digitsOf n with
  | [] => exact absurd hd (digitsOf_ne_nil n)
  | d :: ds =>
    have hdd : ∀ x ∈ d :: ds, 48 ≤ x ∧ x ≤ 57 := by
      rw [← hd]; exact digitsOf_mem n
    have hd1 := hdd d (List.mem_cons_self d ds)
    have hmem : ∀ x ∈ ds, x < 64 ∨ 126 < x := by
      intro x hx
      have := hdd x (List.mem_cons_of_mem d hx)
      omega
    simp only [List.cons_append, List.map_cons]
    exact num_try_run d ds t rest hd1 hmem ht ht2

/-- Dispatcher run for a numbered escape with two numeric parameters. -/
theorem num2_try_run (a b t : Nat) (rest : List SrcItem) (ht : 64 ≤ t) (ht2 : t ≤ 126) :
    try_parse_event 27 (SrcItem.ok 91 ::
        ((digitsOf a ++ 59 :: digitsOf b).map SrcItem.ok ++ SrcItem.ok t :: rest)) =
      (if t = 77 then rxvtEvent (digitsOf a ++ 59 :: digitsOf b)
       else if t = 126 then specialKeyEvent (digitsOf a ++ 59 :: digitsOf b)
       else Except.error DErr.invalidInput,
        91 :: ((digitsOf a ++ 59 :: digitsOf b) ++ [t]), rest) := by
  match hd : digitsOf a with
  | [] => exact absurd hd (digitsOf_ne_nil a)
  | d :: ds =>
    have hdd : ∀ x ∈ d :: ds, 48 ≤ x ∧ x ≤ 57 := by
      rw [← hd]; exact digitsOf_mem a
    have hd1 := hdd d (List.mem_cons_self d ds)
    have hmem : ∀ x ∈ ds ++ 59 :: digitsOf b, x < 64 ∨ 126 < x := by
      intro x hx
      rcases List.mem_append.mp hx with h | h
      · have := hdd x (List.mem_cons_of_mem d h); omega
      · rcases List.mem_cons.mp h with rfl | h2
        · omega
        · have := digitsOf_mem b x h2; omega
    simp only [List.cons_append, List.map_cons]
    exact num_try_run d (ds ++ 59 :: digitsOf b) t rest hd1 hmem ht ht2

/-- Dispatcher run for a numbered escape with three numeric parameters. -/
theorem num3_try_run (cb cx cy t : Nat) (rest : List SrcItem)
    (ht : 64 ≤ t) (ht2 : t ≤ 126) :
    try_parse_event 27 (SrcItem.ok 91 ::
        ((digitsOf cb ++ 59 :: (digitsOf cx ++ 59 :: digitsOf cy)).map SrcItem.ok ++
          SrcItem.ok t :: rest)) =
      (if t = 77 then rxvtEvent (digitsOf cb ++ 59 :: (digitsOf cx ++ 59 :: digitsOf cy))
       else if t = 126 then
         specialKeyEvent (digitsOf cb ++ 59 :: (digitsOf cx ++ 59 :: digitsOf cy))
       else Except.error DErr.invalidInput,
        91 :: ((digitsOf cb ++ 59 :: (digitsOf cx ++ 59 :: digitsOf cy)) ++ [t]),
        rest) := by
  match hd : digitsOf cb with
  | [] => exact absurd hd (digitsOf_ne_nil cb)
  | d :: ds =>
    have hdd : ∀ x ∈ d :: ds, 48 ≤ x ∧ x ≤ 57 := by
      rw [← hd]; exact digitsOf_mem cb
    have hd1 := hdd d (List.mem_cons_self d ds)
    have hmem : ∀ x ∈ ds ++ 59 :: (digitsOf cx ++ 59 :: digitsOf cy),
        x < 64 ∨ 126 < x := by
      intro x hx
      rcases List.mem_append.mp hx with h | h
      · have := hdd x (List.mem_cons_of_mem d h); omega
      · rcases List.mem_cons.mp h with rfl | h2
        · omega
        · rcases List.mem_append.mp h2 with h3 | h3
          · have := digitsOf_mem cx x h3; omega
          · rcases List.mem_cons.mp h3 with rfl | h4
            · omega
            · have := digitsOf_mem cy x h4; omega
    simp only [List.cons_append, List.map_cons]
    exact num_try_run d (ds ++ 59 :: (digitsOf cx ++ 59 :: digitsOf cy)) t rest hd1 hmem ht ht2

theorem specialKeyEvent_digits (n : Nat) :
    specialKeyEvent (digitsOf n) =
      if n = 1 ∨ n = 7 then Except.ok (Event.Key Key.Home)
      else if n = 2 then Except.ok (Event.Key Key.Insert)
      else if n = 3 then Except.ok (Event.Key Key.Delete)
      else if n = 4 ∨ n = 8 then Except.ok (Event.Key Key.End)
      else if n = 5 then Except.ok (Event.Key Key.PageUp)
      else if n = 6 then Except.ok (Event.Key Key.PageDown)
      else if 11 ≤ n ∧ n ≤ 15 then Except.ok (Event.Key (Key.F (n - 10)))
      else if 17 ≤ n ∧ n ≤ 21 then Except.ok (Event.Key (Key.F (n - 11)))
      else if 23 ≤ n ∧ n ≤ 24 then Except.ok (Event.Key (Key.F (n - 12)))
      else Except.error DErr.invalidInput := by
  unfold specialKeyEvent
  rw [utf8ValidAll_ascii _ (fun x hx => by have := digitsOf_mem n x hx; omega),
    splitSemi_no_sep _ (digitsOf_ne59 n)]
  simp only [List.map_cons, List.map_nil, rustParse_digitsOf]
  by_cases hn : n ≤ 255
  · simp [popNum, hn]
  · simp only [if_neg hn, popNum]
    rw [if_neg (show ¬(n = 1 ∨ n = 7) by omega), if_neg (show ¬n = 2 by omega),
      if_neg (show ¬n = 3 by omega), if_neg (show ¬(n = 4 ∨ n = 8) by omega),
      if_neg (show ¬n = 5 by omega), if_neg (show ¬n = 6 by omega),
      if_neg (show ¬(11 ≤ n ∧ n ≤ 15) by omega),
      if_neg (show ¬(17 ≤ n ∧ n ≤ 21) by omega),
      if_neg (show ¬(23 ≤ n ∧ n ≤ 24) by omega)]
    simp

theorem specialKeyEvent_two (a b : Nat) :
    ∃ err, specialKeyEvent (digitsOf a ++ 59 :: digitsOf b) = Except.error err := by
  unfold specialKeyEvent
  have hmem : ∀ x ∈ digitsOf a ++ 59 :: digitsOf b, x ≤ 127 := by
    intro x hx
    rcases List.mem_append.mp hx with h | h
    · have := digitsOf_mem a x h; omega
    · rcases List.mem_cons.mp h with rfl | h2
      · omega
      · have := digitsOf_mem b x h2; omega
  rw [utf8ValidAll_ascii _ hmem, splitSemi_append _ (digitsOf_ne59 a),
    splitSemi_no_sep _ (digitsOf_ne59 b)]
  simp only [List.map_cons, List.map_nil]
  cases hpa : rustParse 255 (digitsOf a) with
  | none => exact ⟨DErr.invalidInput, by simp [popNum]⟩
  | some v => exact ⟨DErr.invalidInput, by simp [popNum]⟩

theorem rxvtEvent_digits (cb cx cy : Nat) (hcx : cx ≤ 65535) (hcy : cy ≤ 65535) :
    rxvtEvent (digitsOf cb ++ 59 :: (digitsOf cx ++ 59 :: digitsOf cy)) =
      if cb ≤ 65535 then
        if cb = 32 then Except.ok (Event.Mouse (MouseEvent.Press MouseButton.Left cx cy))
        else if cb = 33 then Except.ok (Event.Mouse (MouseEvent.Press MouseButton.Middle cx cy))
        else if cb = 34 then Except.ok (Event.Mouse (MouseEvent.Press MouseButton.Right cx cy))
        else if cb = 35 then Except.ok (Event.Mouse (MouseEvent.Release cx cy))
        else if cb = 64 then Except.ok (Event.Mouse (MouseEvent.Hold cx cy))
        else if cb = 96 ∨ cb = 97 then
          Except.ok (Event.Mouse (MouseEvent.Press MouseButton.WheelUp cx cy))
        else Except.error DErr.invalidInput
      else Except.error DErr.invalidInput := by
  unfold rxvtEvent
  rw [L3_valid cb cx cy, L3_split cb cx cy]
  simp only [List.map_cons, List.map_nil, rustParse_digitsOf,
    if_pos hcx, if_pos hcy]
  by_cases hcb : cb ≤ 65535
  · simp [popNum, hcb]
  · simp [popNum, hcb]

theorem specialKey_bridge (n : Nat) (buf : List Nat) :
    specialKeyEvent (digitsOf n) = Except.ok (specialKeyClaim n buf) ∨
    (∃ err, specialKeyEvent (digitsOf n) = Except.error err ∧
      specialKeyClaim n buf = Event.Unsupported buf) := by
  rw [specialKeyEvent_digits]
  unfold specialKeyClaim
  by_cases h1 : n = 1 ∨ n = 7
  · simp only [if_pos h1]; exact Or.inl trivial
  · simp only [if_neg h1]
    by_cases h2 : n = 2
    · simp only [if_pos h2]; exact Or.inl trivial
    · simp only [if_neg h2]
      by_cases h3 : n = 3
      · simp only [if_pos h3]; exact Or.inl trivial
      · simp only [if_neg h3]
        by_cases h4 : n = 4 ∨ n = 8
        · simp only [if_pos h4]; exact Or.inl trivial
        · simp only [if_neg h4]
          by_cases h5 : n = 5
          · simp only [if_pos h5]; exact Or.inl trivial
          · simp only [if_neg h5]
            by_cases h6 : n = 6
            · simp only [if_pos h6]; exact Or.inl trivial
            · simp only [if_neg h6]
              by_cases h7 : 11 ≤ n ∧ n ≤ 15
              · simp only [if_pos h7]; exact Or.inl trivial
              · simp only [if_neg h7]
                by_cases h8 : 17 ≤ n ∧ n ≤ 21
                · simp only [if_pos h8]; exact Or.inl trivial
                · simp only [if_neg h8]
                  by_cases h9 : 23 ≤ n ∧ n ≤ 24
                  · simp only [if_pos h9]; exact Or.inl trivial
                  · simp only [if_neg h9]
                    refine Or.inr ⟨DErr.invalidInput, ?_, ?_⟩ <;> first | rfl | trivial

/-- C6: a numbered escape with a single parameter n terminated by a tilde
resolves by the spec-side specialKeyClaim table (1 or 7 Home, 2 Insert,
3 Delete, 4 or 8 End, 5 PageUp, 6 PageDown, 11-15 F1-F5, 17-21 F6-F10,
23-24 F11-F12, anything else a decode error surfacing as Unsupported), and a
second parameter is always rejected as a decode error, never interpreted. -/
theorem C6_special_key :
    (∀ n rest,
      parse_event 27 (SrcItem.ok 91 ::
          ((digitsOf n).map SrcItem.ok ++ SrcItem.ok 126 :: rest)) =
        ((specialKeyClaim n (27 :: 91 :: (digitsOf n ++ [126])),
          27 :: 91 :: (digitsOf n ++ [126])), rest)) ∧
    (∀ a b rest,
      parse_event 27 (SrcItem.ok 91 ::
          ((digitsOf a ++ 59 :: digitsOf b).map SrcItem.ok ++ SrcItem.ok 126 :: rest)) =
        ((Event.Unsupported (27 :: 91 :: ((digitsOf a ++ 59 :: digitsOf b) ++ [126])),
          27 :: 91 :: ((digitsOf a ++ 59 :: digitsOf b) ++ [126])), rest)) ∧
    (parse_event 27 [SrcItem.ok 91, SrcItem.ok 51, SrcItem.ok 126]).1.1 =
      Event.Key Key.Delete := by
  refine ⟨?_, ?_, by decide⟩
  · intro n rest
    have htry := num1_try_run n 126 rest (by norm_num) (by norm_num)
    rw [if_neg (by norm_num : ¬(126 : Nat) = 77), if_pos rfl] at htry
    rcases specialKey_bridge n (27 :: 91 :: (digitsOf n ++ [126])) with h | ⟨err, h, hclaim⟩
    · rw [h] at htry
      rw [parse_event_of_try_ok htry]
    · rw [h] at htry
      rw [parse_event_of_try_error htry, hclaim]
  · intro a b rest
    have htry := num2_try_run a b 126 rest (by norm_num) (by norm_num)
    rw [if_neg (by norm_num : ¬(126 : Nat) = 77), if_pos rfl] at htry
    obtain ⟨err, h⟩ := specialKeyEvent_two a b
    rw [h] at htry
    rw [parse_event_of_try_error htry]

theorem rxvt_bridge (cb cx cy : Nat) (hcx : cx ≤ 65535) (hcy : cy ≤ 65535)
    (buf : List Nat) :
    rxvtEvent (digitsOf cb ++ 59 :: (digitsOf cx ++ 59 :: digitsOf cy)) =
      Except.ok (rxvtClaim cb cx cy buf) ∨
    (∃ err, rxvtEvent (digitsOf cb ++ 59 :: (digitsOf cx ++ 59 :: digitsOf cy)) =
        Except.error err ∧ rxvtClaim cb cx cy buf = Event.Unsupported buf) := by
  rw [rxvtEvent_digits cb cx cy hcx hcy]
  by_cases hcb : cb ≤ 65535
  · rw [if_pos hcb]
    unfold rxvtClaim
    by_cases h1 : cb = 32
    · simp only [if_pos h1]; exact Or.inl trivial
    · simp only [if_neg h1]
      by_cases h2 : cb = 33
      · simp only [if_pos h2]; exact Or.inl trivial
      · simp only [if_neg h2]
        by_cases h3 : cb = 34
        · simp only [if_pos h3]; exact Or.inl trivial
        · simp only [if_neg h3]
          by_cases h4 : cb = 35
          · simp only [if_pos h4]; exact Or.inl trivial
          · simp only [if_neg h4]
            by_cases h5 : cb = 64
            · simp only [if_pos h5]; exact Or.inl trivial
            · simp only [if_neg h5]
              by_cases h6 : cb = 96 ∨ cb = 97
              · simp only [if_pos h6]; exact Or.inl trivial
              · simp only [if_neg h6]
                refine Or.inr ⟨DErr.invalidInput, ?_, ?_⟩ <;> first | rfl | trivial
  · rw [if_neg hcb]
    unfold rxvtClaim
    rw [if_neg (show ¬cb = 32 by omega), if_neg (show ¬cb = 33 by omega),
      if_neg (show ¬cb = 34 by omega), if_neg (show ¬cb = 35 by omega),
      if_neg (show ¬cb = 64 by omega), if_neg (show ¬(cb = 96 ∨ cb = 97) by omega)]
    exact Or.inr ⟨DErr.invalidInput, rfl, rfl⟩

/-- C7: a numbered escape with three parameters terminated by M resolves by
the spec-side rxvtClaim table (32 left press, 33 middle press, 34 right
press, 35 release, 64 hold, 96 or 97 wheel-up press, anything else a decode
error surfacing as Unsupported), and any terminator in the final-byte range
other than M or the tilde is a decode error. -/
theorem C7_rxvt_mouse :
    (∀ cb cx cy rest, cx ≤ 65535 → cy ≤ 65535 →
      parse_event 27 (SrcItem.ok 91 ::
          ((digitsOf cb ++ 59 :: (digitsOf cx ++ 59 :: digitsOf cy)).map SrcItem.ok ++
            SrcItem.ok 77 :: rest)) =
        ((rxvtClaim cb cx cy (27 :: 91 ::
            ((digitsOf cb ++ 59 :: (digitsOf cx ++ 59 :: digitsOf cy)) ++ [77])),
          27 :: 91 ::
            ((digitsOf cb ++ 59 :: (digitsOf cx ++ 59 :: digitsOf cy)) ++ [77])), rest)) ∧
    (∀ cb cx cy t rest, 64 ≤ t → t ≤ 126 → t ≠ 77 → t ≠ 126 →
      parse_event 27 (SrcItem.ok 91 ::
          ((digitsOf cb ++ 59 :: (digitsOf cx ++ 59 :: digitsOf cy)).map SrcItem.ok ++
            SrcItem.ok t :: rest)) =
        ((Event.Unsupported (27 :: 91 ::
            ((digitsOf cb ++ 59 :: (digitsOf cx ++ 59 :: digitsOf cy)) ++ [t])),
          27 :: 91 ::
            ((digitsOf cb ++ 59 :: (digitsOf cx ++ 59 :: digitsOf cy)) ++ [t])), rest)) := by
  constructor
  · intro cb cx cy rest hcx hcy
    have htry := num3_try_run cb cx cy 77 rest (by norm_num) (by norm_num)
    rw [if_pos rfl] at htry
    rcases rxvt_bridge cb cx cy hcx hcy (27 :: 91 ::
        ((digitsOf cb ++ 59 :: (digitsOf cx ++ 59 :: digitsOf cy)) ++ [77])) with
      h | ⟨err, h, hclaim⟩
    · rw [h] at htry
      rw [parse_event_of_try_ok htry]
    · rw [h] at htry
      rw [parse_event_of_try_error htry, hclaim]
  · intro cb cx cy t rest ht1 ht2 ht3 ht4
    have htry := num3_try_run cb cx cy t rest ht1 ht2
    rw [if_neg ht3, if_neg ht4] at htry
    rw [parse_event_of_try_error htry]

/-- C7 witness: parameters 32, 1, 2 terminated by M decode to a left press at
(1, 2), and terminator 65 (an other final byte) on the same parameters gives
an Unsupported event. -/
theorem C7_rxvt_mouse_witness :
    parse_event 27 (SrcItem.ok 91 ::
        ((digitsOf 32 ++ 59 :: (digitsOf 1 ++ 59 :: digitsOf 2)).map SrcItem.ok ++
          SrcItem.ok 77 :: [])) =
      ((rxvtClaim 32 1 2 (27 :: 91 ::
          ((digitsOf 32 ++ 59 :: (digitsOf 1 ++ 59 :: digitsOf 2)) ++ [77])),
        27 :: 91 ::
          ((digitsOf 32 ++ 59 :: (digitsOf 1 ++ 59 :: digitsOf 2)) ++ [77])), []) ∧
    rxvtClaim 32 1 2 [] = Event.Mouse (MouseEvent.Press MouseButton.Left 1 2) ∧
    parse_event 27 (SrcItem.ok 91 ::
        ((digitsOf 32 ++ 59 :: (digitsOf 1 ++ 59 :: digitsOf 2)).map SrcItem.ok ++
          SrcItem.ok 65 :: [])) =
      ((Event.Unsupported (27 :: 91 ::
          ((digitsOf 32 ++ 59 :: (digitsOf 1 ++ 59 :: digitsOf 2)) ++ [65])),
        27 :: 91 ::
          ((digitsOf 32 ++ 59 :: (digitsOf 1 ++ 59 :: digitsOf 2)) ++ [65])), []) :=
  ⟨C7_rxvt_mouse.1 32 1 2 [] (by norm_num) (by norm_num), by decide,
    C7_rxvt_mouse.2 32 1 2 65 [] (by norm_num) (by norm_num) (by norm_num) (by norm_num)⟩

/-! ## UTF-8 encoding and the round trip through parse_utf8_char -/

/-- The standard UTF-8 encoding of a scalar value, as byte values. -/
def utf8Encode (n : Nat) : List Nat :=
  if n ≤ 127 then [n]
  else if n ≤ 2047 then [192 + n / 64, 128 + n % 64]
  else if n ≤ 65535 then [224 + n / 4096, 128 + n / 64 % 64, 128 + n % 64]
  else [240 + n / 262144, 128 + n / 4096 % 64, 128 + n / 64 % 64, 128 + n % 64]

theorem utf8DecodeFirst_two (n : Nat) (h1 : 128 ≤ n) (h2 : n ≤ 2047) :
    utf8DecodeFirst [192 + n / 64, 128 + n % 64] = some (n, []) := by
  simp only [utf8DecodeFirst,
    if_neg (show ¬(192 + n / 64 ≤ 127) by omega),
    if_pos (show 194 ≤ 192 + n / 64 ∧ 192 + n / 64 ≤ 223 by omega),
    if_pos (show 128 ≤ 128 + n % 64 ∧ 128 + n % 64 ≤ 191 by omega)]
  have hv : (192 + n / 64 - 192) * 64 + (128 + n % 64 - 128) = n := by omega
  rw [hv]

theorem utf8DecodeFirst_three (n : Nat) (h1 : 2048 ≤ n) (h2 : n ≤ 65535)
    (hs : ¬(55296 ≤ n ∧ n ≤ 57343)) :
    utf8DecodeFirst [224 + n / 4096, 128 + n / 64 % 64, 128 + n % 64] =
      some (n, []) := by
  have hcond : ((if 224 + n / 4096 = 224 then 160 else 128) ≤ 128 + n / 64 % 64 ∧
      128 + n / 64 % 64 ≤ (if 224 + n / 4096 = 237 then 159 else 191)) ∧
      (128 ≤ 128 + n % 64 ∧ 128 + n % 64 ≤ 191) := by
    refine ⟨⟨?_, ?_⟩, by omega, by omega⟩ <;> split <;> omega
  simp only [utf8DecodeFirst,
    if_neg (show ¬(224 + n / 4096 ≤ 127) by omega),
    if_neg (show ¬(194 ≤ 224 + n / 4096 ∧ 224 + n / 4096 ≤ 223) by omega),
    if_pos (show 224 ≤ 224 + n / 4096 ∧ 224 + n / 4096 ≤ 239 by omega),
    if_pos hcond]
  have hv : (224 + n / 4096 - 224) * 4096 + (128 + n / 64 % 64 - 128) * 64 +
      (128 + n % 64 - 128) = n := by omega
  rw [hv]

theorem utf8DecodeFirst_four (n : Nat) (h1 : 65536 ≤ n) (h2 : n ≤ 1114111) :
    utf8DecodeFirst [240 + n / 262144, 128 + n / 4096 % 64, 128 + n / 64 % 64,
      128 + n % 64] = some (n, []) := by
  have hcond : ((if 240 + n / 262144 = 240 then 144 else 128) ≤ 128 + n / 4096 % 64 ∧
      128 + n / 4096 % 64 ≤ (if 240 + n / 262144 = 244 then 143 else 191)) ∧
      (128 ≤ 128 + n / 64 % 64 ∧ 128 + n / 64 % 64 ≤ 191) ∧
      (128 ≤ 128 + n % 64 ∧ 128 + n % 64 ≤ 191) := by
    refine ⟨⟨?_, ?_⟩, ⟨by omega, by omega⟩, by omega, by omega⟩ <;> split <;> omega
  simp only [utf8DecodeFirst,
    if_neg (show ¬(240 + n / 262144 ≤ 127) by omega),
    if_neg (show ¬(194 ≤ 240 + n / 262144 ∧ 240 + n / 262144 ≤ 223) by omega),
    if_neg (show ¬(224 ≤ 240 + n / 262144 ∧ 240 + n / 262144 ≤ 239) by omega),
    if_pos (show 240 ≤ 240 + n / 262144 ∧ 240 + n / 262144 ≤ 244 by omega),
    if_pos hcond]
  have hv : (240 + n / 262144 - 240) * 262144 + (128 + n / 4096 % 64 - 128) * 4096 +
      (128 + n / 64 % 64 - 128) * 64 + (128 + n % 64 - 128) = n := by omega
  rw [hv]

theorem utf8DecodeFirst_three_short (b0 b1 : Nat) (h : 224 ≤ b0 ∧ b0 ≤ 239) :
    utf8DecodeFirst [b0, b1] = none := by
  simp only [utf8DecodeFirst, if_neg (show ¬b0 ≤ 127 by omega),
    if_neg (show ¬(194 ≤ b0 ∧ b0 ≤ 223) by omega), if_pos h]

theorem utf8DecodeFirst_four_prefix2 (b0 b1 : Nat) (h : 240 ≤ b0 ∧ b0 ≤ 244) :
    utf8DecodeFirst [b0, b1] = none := by
  simp only [utf8DecodeFirst, if_neg (show ¬b0 ≤ 127 by omega),
    if_neg (show ¬(194 ≤ b0 ∧ b0 ≤ 223) by omega),
    if_neg (show ¬(224 ≤ b0 ∧ b0 ≤ 239) by omega), if_pos h]

theorem utf8DecodeFirst_four_prefix3 (b0 b1 b2 : Nat) (h : 240 ≤ b0 ∧ b0 ≤ 244) :
    utf8DecodeFirst [b0, b1, b2] = none := by
  simp only [utf8DecodeFirst, if_neg (show ¬b0 ≤ 127 by omega),
    if_neg (show ¬(194 ≤ b0 ∧ b0 ≤ 223) by omega),
    if_neg (show ¬(224 ≤ b0 ∧ b0 ≤ 239) by omega), if_pos h]

theorem utf8FirstIfValid_none {l : List Nat} (h : utf8DecodeFirst l = none) :
    utf8FirstIfValid l = none := by
  unfold utf8FirstIfValid
  rw [h]

theorem utf8FirstIfValid_one {l : List Nat} {n : Nat}
    (h : utf8DecodeFirst l = some (n, [])) : utf8FirstIfValid l = some n := by
  unfold utf8FirstIfValid
  rw [h]
  rfl

theorem parse_utf8_two (n : Nat) (h1 : 128 ≤ n) (h2 : n ≤ 2047)
    (rest : List SrcItem) :
    parse_utf8_char (192 + n / 64) (SrcItem.ok (128 + n % 64) :: rest) =
      (Except.ok n, [128 + n % 64], rest) := by
  unfold parse_utf8_char
  rw [if_neg (by omega)]
  have hfull : utf8FirstIfValid [192 + n / 64, 128 + n % 64] = some n :=
    utf8FirstIfValid_one (utf8DecodeFirst_two n h1 h2)
  simp only [utf8Loop, List.cons_append, List.nil_append, hfull]

theorem parse_utf8_three (n : Nat) (h1 : 2048 ≤ n) (h2 : n ≤ 65535)
    (hs : ¬(55296 ≤ n ∧ n ≤ 57343)) (rest : List SrcItem) :
    parse_utf8_char (224 + n / 4096)
        (SrcItem.ok (128 + n / 64 % 64) :: SrcItem.ok (128 + n % 64) :: rest) =
      (Except.ok n, [128 + n / 64 % 64, 128 + n % 64], rest) := by
  unfold parse_utf8_char
  rw [if_neg (by omega)]
  have hpre : utf8FirstIfValid [224 + n / 4096, 128 + n / 64 % 64] = none :=
    utf8FirstIfValid_none (utf8DecodeFirst_three_short _ _ (by omega))
  have hfull : utf8FirstIfValid [224 + n / 4096, 128 + n / 64 % 64, 128 + n % 64] =
      some n :=
    utf8FirstIfValid_one (utf8DecodeFirst_three n h1 h2 hs)
  simp only [utf8Loop, List.cons_append, List.nil_append, hpre, hfull,
    List.length_cons, List.length_nil]
  norm_num

theorem parse_utf8_four (n : Nat) (h1 : 65536 ≤ n) (h2 : n ≤ 1114111)
    (rest : List SrcItem) :
    parse_utf8_char (240 + n / 262144)
        (SrcItem.ok (128 + n / 4096 % 64) :: SrcItem.ok (128 + n / 64 % 64) ::
          SrcItem.ok (128 + n % 64) :: rest) =
      (Except.ok n, [128 + n / 4096 % 64, 128 + n / 64 % 64, 128 + n % 64], rest) := by
  unfold parse_utf8_char
  rw [if_neg (by omega)]
  have hpre2 : utf8FirstIfValid [240 + n / 262144, 128 + n / 4096 % 64] = none :=
    utf8FirstIfValid_none (utf8DecodeFirst_four_prefix2 _ _ (by omega))
  have hpre3 : utf8FirstIfValid [240 + n / 262144, 128 + n / 4096 % 64,
      128 + n / 64 % 64] = none :=
    utf8FirstIfValid_none (utf8DecodeFirst_four_prefix3 _ _ _ (by omega))
  have hfull : utf8FirstIfValid [240 + n / 262144, 128 + n / 4096 % 64,
      128 + n / 64 % 64, 128 + n % 64] = some n :=
    utf8FirstIfValid_one (utf8DecodeFirst_four n h1 h2)
  simp only [utf8Loop, List.cons_append, List.nil_append, hpre2, hpre3, hfull,
    List.length_cons, List.length_nil]
  norm_num

/-- C8: parse_utf8_char inverts UTF-8 encoding: a 7-bit byte is returned as
the character itself with nothing read; for every valid multi-byte scalar,
feeding the leading byte and the continuation bytes one at a time returns
exactly the original scalar; and when the source ends or errors before
validation, or four accumulated bytes never validate, the invalid-encoding
decode error is reported. -/
theorem C8_utf8_roundtrip :
    (∀ c src, c ≤ 127 → parse_utf8_char c src = (Except.ok c, [], src)) ∧
    (∀ n, 128 ≤ n → n < 1114112 → ¬(55296 ≤ n ∧ n ≤ 57343) → ∀ rest,
      ∃ b0 bs, utf8Encode n = b0 :: bs ∧
        parse_utf8_char b0 (bs.map SrcItem.ok ++ rest) = (Except.ok n, bs, rest)) ∧
    (∀ c, 128 ≤ c → parse_utf8_char c [] = (Except.error DErr.utf8Err, [], [])) ∧
    (∀ c r, 128 ≤ c →
      parse_utf8_char c (SrcItem.err :: r) = (Except.error DErr.utf8Err, [], r)) ∧
    (∀ c b1 b2 b3 r, 128 ≤ c →
      utf8FirstIfValid [c, b1] = none → utf8FirstIfValid [c, b1, b2] = none →
      utf8FirstIfValid [c, b1, b2, b3] = none →
      parse_utf8_char c (SrcItem.ok b1 :: SrcItem.ok b2 :: SrcItem.ok b3 :: r) =
        (Except.error DErr.utf8Err, [b1, b2, b3], r)) := by
  refine ⟨?_, ?_, ?_, ?_, ?_⟩
  · intro c src hc
    unfold parse_utf8_char
    rw [if_pos hc]
  · intro n hn1 hn2 hs rest
    by_cases h2 : n ≤ 2047
    · refine ⟨192 + n / 64, [128 + n % 64], ?_, ?_⟩
      · unfold utf8Encode
        rw [if_neg (by omega), if_pos h2]
      · simpa using parse_utf8_two n hn1 h2 rest
    · by_cases h3 : n ≤ 65535
      · refine ⟨224 + n / 4096, [128 + n / 64 % 64, 128 + n % 64], ?_, ?_⟩
        · unfold utf8Encode
          rw [if_neg (by omega), if_neg h2, if_pos h3]
        · simpa using parse_utf8_three n (by omega) h3 hs rest
      · refine ⟨240 + n / 262144,
          [128 + n / 4096 % 64, 128 + n / 64 % 64, 128 + n % 64], ?_, ?_⟩
        · unfold utf8Encode
          rw [if_neg (by omega), if_neg h2, if_neg h3]
        · simpa using parse_utf8_four n (by omega) (by omega) rest
  · intro c hc
    unfold parse_utf8_char
    rw [if_neg (by omega)]
    rfl
  · intro c r hc
    unfold parse_utf8_char
    rw [if_neg (by omega)]
    rfl
  · intro c b1 b2 b3 r hc hp2 hp3 hp4
    unfold parse_utf8_char
    rw [if_neg (by omega)]
    have e2 : ([c] ++ [b1] : List Nat) = [c, b1] := rfl
    have e3 : ([c, b1] ++ [b2] : List Nat) = [c, b1, b2] := rfl
    have e4 : ([c, b1, b2] ++ [b3] : List Nat) = [c, b1, b2, b3] := rfl
    simp only [utf8Loop, e2, e3, e4, hp2, hp3, hp4, List.length_cons,
      List.length_nil]
    norm_num

/-- C8 witness: the two-byte character e-acute, scalar 233 encoded as bytes
195 and 169, round-trips through parse_utf8_char, consuming exactly the
continuation byte. -/
theorem C8_utf8_roundtrip_witness :
    utf8Encode 233 = [195, 169] ∧
    parse_utf8_char 195 [SrcItem.ok 169] = (Except.ok 233, [169], []) := by
  obtain ⟨b0, bs, he, hp⟩ := C8_utf8_roundtrip.2.1 233 (by norm_num) (by norm_num)
    (by norm_num) []
  have henc : utf8Encode 233 = [195, 169] := by decide
  refine ⟨henc, ?_⟩
  rw [henc] at he
  injection he with hb0 hbs
  subst hb0
  subst hbs
  simpa using hp

end Termion
